import Mathlib

/-!
Verification development for the game_seeder repository.

The repository has two engines:
* power_assign.py : class PowerAssignment — assigns the seven Diplomacy powers
  to the players of one game, minimising repeats of powers and power groups.
* game_seeder.py : class GameSeeder — partitions a pool of players into
  seven-player games, minimising repeated pairings.

The embedding below is a shallow model of that Python code.  Conventions:
* Python sets are modelled as duplicate-free lists (an explicit iteration
  order; all stated properties are order-insensitive or quantify over orders).
* Python dicts keyed by players are modelled either as association lists
  (when insertion order / key set matters) or as total functions with an
  explicit default (games_played_matrix: an absent entry means count 0;
  previous_games: an absent entry is modelled as the empty history).
* Exceptions are modelled with Except / Option.  An operation that can leave
  a partially mutated object behind (add_played_game) returns the partial
  state together with the error.
* random.choice / random.shuffle / set.pop draw from an explicit oracle that
  is threaded through as a counter into a function argument, so theorems
  quantify over every outcome of the random source.
* while-loops without a structural bound take a fuel argument and return
  none when it runs out; claims about calls that return normally are
  conditioned on a some result.
-/

set_option linter.unusedSectionVars false

namespace GameSeederRepo

/-- Errors raised by power_assign.py.  nameError models a Python NameError
(an undefined variable reached at runtime); indexError models a Python
IndexError from subscripting an empty list. -/
inductive PAErr where
  | invalidPower
  | missingPower
  | wrongPlayerCount
  | nameError
  | indexError
  deriving DecidableEq, Repr

/-- State of power_assign.PowerAssignment.  previous_games is the dict
indexed by player of powers played (an absent key is modelled as the empty
list, which is how the scoring code treats it: a KeyError there is caught
and scored 0).  groupings is the list of (grouping, value) pairs.
all_powers is the list passed to the constructor. -/
structure PowerAssignment (α β : Type) where
  previous_games : α → List β
  groupings : List (List (List β) × Nat)
  all_powers : List β

/-- PowerAssignment.__init__(all_powers). -/
def PowerAssignment.init {α β : Type} (all_powers : List β) : PowerAssignment α β :=
  { previous_games := fun _ => [], groupings := [], all_powers := all_powers }

variable {α β : Type} [DecidableEq α] [DecidableEq β]

/-- PowerAssignment.add_grouping(grouping, value): raises InvalidPower on the
first power of the grouping outside all_powers; otherwise raises MissingPower
when some declared power occurs in no group; otherwise appends
(grouping, value) to self.groupings. -/
def PowerAssignment.add_grouping (s : PowerAssignment α β) (grouping : List (List β))
    (value : Nat) : Except PAErr (PowerAssignment α β) :=
  if grouping.all (fun g => g.all (fun p => decide (p ∈ s.all_powers))) then
    if (s.all_powers.filter (fun p => grouping.all (fun g => decide (p ∉ g)))).isEmpty then
      .ok { s with groupings := s.groupings ++ [(grouping, value)] }
    else .error .missingPower
  else .error .invalidPower

/-- PowerAssignment.set_earlier_games(for_player, powers_played): checks every
power against all_powers (InvalidPower), then overwrites the record for the
player. -/
def PowerAssignment.set_earlier_games (s : PowerAssignment α β) (for_player : α)
    (powers_played : List β) : Except PAErr (PowerAssignment α β) :=
  if powers_played.all (fun p => decide (p ∈ s.all_powers)) then
    .ok { s with previous_games := Function.update s.previous_games for_player powers_played }
  else .error .invalidPower

/-- PowerAssignment.add_power_played(for_player, power).  The source reads

    if power not in self.all_powers:
        raise InvalidPower(p)

where the name p is not defined in that scope, so the failing branch raises
NameError, not InvalidPower; the model records this as PAErr.nameError.
On the success path the source appends to self.previous_games[for_player]
(our total-function model appends to the default empty history when the
player has no record; the Python dict would raise KeyError there, a case no
claim touches). -/
def PowerAssignment.add_power_played (s : PowerAssignment α β) (for_player : α)
    (power : β) : Except PAErr (PowerAssignment α β) :=
  if power ∈ s.all_powers then
    .ok { s with
          previous_games := Function.update s.previous_games for_player
            (s.previous_games for_player ++ [power]) }
  else .error .nameError

/-- The group of grouping that _calculate_group_fitness selects for a power v:
the loop `for g in grouping: if v in g: break` leaves g bound to the first
group containing v, or to the last group when none contains v (for the empty
grouping the Python loop would leave g unbound and the use of g would raise
NameError; that case, which no registered grouping can produce, is modelled
as the empty group). -/
def groupFor (grouping : List (List β)) (v : β) : List β :=
  match grouping.find? (fun g => decide (v ∈ g)) with
  | some g => g
  | none => grouping.getLast?.getD []

/-- PowerAssignment._calculate_group_fitness(power_assignment, grouping):
for each (player, power) item, counts the entries of the player's history
lying in the group selected for the assigned power. -/
def PowerAssignment.calculate_group_fitness (s : PowerAssignment α β)
    (power_assignment : List (α × β)) (grouping : List (List β)) : Nat :=
  (power_assignment.map (fun kv =>
    ((s.previous_games kv.1).filter (fun i => decide (i ∈ groupFor grouping kv.2))).length)).sum

/-- PowerAssignment._calculate_fitness(power_assignment): for each
(player, power) item, counts the entries of the player's history equal to the
assigned power. -/
def PowerAssignment.calculate_fitness (s : PowerAssignment α β)
    (power_assignment : List (α × β)) : Nat :=
  (power_assignment.map (fun kv =>
    ((s.previous_games kv.1).filter (fun i => decide (i = kv.2))).length)).sum

/-- The composite score computed in best_power_assignment for one candidate
assignment: the weighted group fitness summed over the registered groupings,
plus the exact-repeat fitness. -/
def PowerAssignment.compositeScore (s : PowerAssignment α β)
    (a : List (α × β)) : Nat :=
  (s.groupings.map (fun gw => gw.2 * s.calculate_group_fitness a gw.1)).sum
    + s.calculate_fitness a

/-- The composite score as the spec words it, written from the spec's text to
compare with compositeScore, which is modelled from the source: for every
registered grouping, weight times the COUNT OF PLAYERS whose assigned power's
group holds some power already in that player's history — each player
contributing 0 or 1 — plus the COUNT OF PLAYERS whose assigned power itself
appears in their own history.  The source instead counts history entries with
multiplicity. -/
def PowerAssignment.specCompositeScore (s : PowerAssignment α β)
    (a : List (α × β)) : Nat :=
  (s.groupings.map (fun gw =>
    gw.2 * (a.filter (fun kv =>
      (s.previous_games kv.1).any (fun i => decide (i ∈ groupFor gw.1 kv.2)))).length)).sum
    + (a.filter (fun kv => decide (kv.2 ∈ s.previous_games kv.1))).length

/-- Concrete assigner for comparing the two composite scores: powers 10 and
20, player 1 with history [10, 20, 20, 20], player 2 with history [20]. -/
def exPA2 : PowerAssignment Nat Nat :=
  match (PowerAssignment.init (α := Nat) [10, 20]).set_earlier_games 1 [10, 20, 20, 20] with
  | .ok s =>
    match s.set_earlier_games 2 [20] with
    | .ok s2 => s2
    | .error _ => s
  | .error _ => PowerAssignment.init [10, 20]

/-- Inner loop of _assign_remaining_powers: iterate over the (shuffled)
remaining powers; for each, either emit the singleton assignment (no players
left) or extend every recursive assignment with (player, power) appended
(dict.update appends the new key at the end of the dict's insertion order).
rec is the recursive call on the remaining players. -/
def arpLoop (rec : List β → List α → Nat → Option (List (List (α × β)) × Nat))
    (used_powers : List β) (player : α) (remaining_players : List α) :
    List β → Nat → Option (List (List (α × β)) × Nat)
  | [], t => some ([], t)
  | power :: rest, t =>
    if remaining_players.isEmpty then
      match arpLoop rec used_powers player remaining_players rest t with
      | none => none
      | some (others, t') => some ([(player, power)] :: others, t')
    else
      match rec (used_powers ++ [power]) remaining_players t with
      | none => none
      | some (subs, t') =>
        match arpLoop rec used_powers player remaining_players rest t' with
        | none => none
        | some (others, t'') =>
          some (subs.map (fun a => a ++ [(player, power)]) ++ others, t'')

/-- The set difference set(all_powers) - set(used_powers) computed in
_assign_remaining_powers, as a canonical duplicate-free list (its arbitrary
Python set order is absorbed by the shuffle oracle applied to it). -/
def availPowers (s : PowerAssignment α β) (used_powers : List β) : List β :=
  (s.all_powers.dedup).filter (fun p => decide (p ∉ used_powers))

/-- PowerAssignment._assign_remaining_powers(used_powers, to_players).
sh is the random.shuffle oracle: at counter t it reorders the list of
remaining powers (theorems assume each sh t l is a permutation of l).
to_players[0] on an empty player list is Python IndexError, modelled (like
fuel exhaustion) as none. -/
def PowerAssignment.assign_remaining_powers (s : PowerAssignment α β)
    (sh : Nat → List β → List β) :
    Nat → List β → List α → Nat → Option (List (List (α × β)) × Nat)
  | 0, _, _, _ => none
  | fuel + 1, used_powers, to_players, t =>
    match to_players with
    | [] => none
    | player :: remaining_players =>
      let remaining_powers := sh t (availPowers s used_powers)
      arpLoop (s.assign_remaining_powers sh fuel) used_powers player
        remaining_players remaining_powers (t + 1)

/-- Stable insertion into a list sorted ascending by key: the new element goes
before the first element of equal or larger key. -/
def insertByKey {γ : Type} (key : γ → Nat) (x : γ) : List γ → List γ
  | [] => [x]
  | y :: ys => if key x ≤ key y then x :: y :: ys else y :: insertByKey key x ys

/-- Stable ascending sort by a Nat key, modelling Python's stable list.sort
with key=itemgetter(1): structurally recursive so that concrete instances
evaluate inside the kernel. -/
def sortByKey {γ : Type} (key : γ → Nat) : List γ → List γ
  | [] => []
  | x :: xs => insertByKey key x (sortByKey key xs)

/-- PowerAssignment.best_power_assignment(for_players): WrongPlayerCount check,
exhaustive enumeration, scoring, stable sort by score, first element.
results[0] on an empty list is Python IndexError. -/
def PowerAssignment.best_power_assignment (s : PowerAssignment α β)
    (sh : Nat → List β → List β) (fuel t : Nat) (for_players : List α) :
    Except PAErr (List (α × β)) :=
  if for_players.length ≠ s.all_powers.length then .error .wrongPlayerCount
  else
    match s.assign_remaining_powers sh fuel [] for_players t with
    | none => .error .indexError
    | some (assignments, _) =>
      let results := assignments.map (fun a => (a, s.compositeScore a))
      match sortByKey Prod.snd results with
      | [] => .error .indexError
      | best :: _ => .ok best.1

/-- A candidate assignment produced for used_powers and to_players: its keys
are exactly to_players (in reverse insertion order), and its powers are
distinct and drawn from the still-available powers. -/
def ArpSound (s : PowerAssignment α β) (used_powers : List β) (to_players : List α)
    (a : List (α × β)) : Prop :=
  a.map Prod.fst = to_players.reverse ∧ (a.map Prod.snd).Nodup ∧
    ∀ v ∈ a.map Prod.snd, v ∈ availPowers s used_powers

/-- The success path of add_power_played: the state with one more power
appended to one player's recorded history (the mutation the monotonicity
property quantifies over). -/
def PowerAssignment.appendHistory (s : PowerAssignment α β) (player : α)
    (power : β) : PowerAssignment α β :=
  { s with
    previous_games := Function.update s.previous_games player
      (s.previous_games player ++ [power]) }

/-! The game_seeder.py model. -/

/-- Errors raised by game_seeder.py: InvalidPlayer, InvalidKey and
InvalidPlayerCount; indexError models a Python IndexError from subscripting
an empty list. -/
inductive SeedErr where
  | invalidPlayer
  | invalidKey
  | invalidPlayerCount
  | indexError
  deriving DecidableEq, Repr

inductive SeedMethod where
  | RANDOM
  | EXHAUSTIVE
  deriving DecidableEq, Repr

/-- Result of an operation that can mutate its object before raising: err
carries the partially mutated state left behind by the exception. -/
inductive StResult (σ : Type) where
  | ok : σ → StResult σ
  | err : SeedErr → σ → StResult σ

/-- State of game_seeder.GameSeeder.  registered is the key list of
games_played_matrix (whose values are the inner count dicts); matrix p q is
the count stored at games_played_matrix[p][q], with 0 for an absent entry
(entries are created at 1 and only incremented, so present means positive);
duplicates is the dict mapping duplicate key to its main player, as an
association list in insertion order.  Python only sets starts/iterations on
RANDOM seeders; the model stores them always — they are read only on paths
where the source has them. -/
structure GameSeeder (α : Type) where
  games_played : Nat
  starts : Nat
  iterations : Nat
  seed_method : SeedMethod
  registered : List α
  matrix : α → α → Nat
  duplicates : List (α × α)

/-- GameSeeder.__init__(starts, iterations, seed_method). -/
def GameSeeder.init {α : Type} (starts iterations : Nat) (seed_method : SeedMethod) :
    GameSeeder α :=
  { games_played := 0, starts := starts, iterations := iterations,
    seed_method := seed_method, registered := [], matrix := fun _ _ => 0,
    duplicates := [] }

/-- The keys of self.duplicates. -/
def GameSeeder.dupKeys (s : GameSeeder α) : List α := s.duplicates.map Prod.fst

/-- GameSeeder.add_player(player): raises InvalidPlayer when the player is
already a key of games_played_matrix (duplicate keys are not checked here),
else inserts an empty inner dict for it. -/
def GameSeeder.add_player (s : GameSeeder α) (player : α) :
    Except SeedErr (GameSeeder α) :=
  if player ∈ s.registered then .error .invalidPlayer
  else .ok { s with registered := s.registered ++ [player] }

/-- GameSeeder.duplicate_player(player, new_key): player must be known,
new_key must be neither a known player nor an existing duplicate key. -/
def GameSeeder.duplicate_player (s : GameSeeder α) (player new_key : α) :
    Except SeedErr (GameSeeder α) :=
  if player ∉ s.registered then .error .invalidPlayer
  else if new_key ∈ s.registered then .error .invalidKey
  else if new_key ∈ s.dupKeys then .error .invalidKey
  else .ok { s with duplicates := s.duplicates ++ [(new_key, player)] }

/-- Resolution of one identity: a duplicate key maps to its main player,
anything else to itself. -/
def GameSeeder.resolve (s : GameSeeder α) (p : α) : α :=
  match s.duplicates.find? (fun kv => decide (kv.1 = p)) with
  | some kv => kv.2
  | none => p

/-- GameSeeder._replace_duplicates_with_mains(game): the set image of game
under resolution, as a deduplicated list. -/
def GameSeeder.replaceDuplicates (s : GameSeeder α) (game : List α) : List α :=
  (game.map s.resolve).dedup

/-- GameSeeder._check_for_playing_self(game) raises InvalidPlayer exactly when
resolving shrinks the set, i.e. when two members of the (duplicate-free)
game resolve to the same main player. -/
def GameSeeder.self_collision (s : GameSeeder α) (game : List α) : Bool :=
  decide (¬ (game.map s.resolve).Nodup)

/-- GameSeeder._duplicate_in_game(game, player): whether adding player to the
game (a set add) would make someone play themself. -/
def GameSeeder.duplicate_in_game (s : GameSeeder α) (game : List α) (player : α) :
    Bool :=
  s.self_collision (if player ∈ game then game else player :: game)

/-- One matrix update of add_played_game: matrix[p][q] += 1, creating an
absent entry (count 0 in the model) at 1. -/
def bumpMatrix {α : Type} [DecidableEq α] (m : α → α → Nat) (p q : α) :
    α → α → Nat :=
  fun p' q' => if p' = p ∧ q' = q then m p q + 1 else m p' q'

/-- Inner loop of add_played_game for a fixed p: for q in game, if p ≠ q, try
matrix[p][q] += 1; on KeyError (entry absent, count 0) the source first
checks that q is a known player — raising InvalidPlayer while keeping the
updates already made — and otherwise creates the entry at 1. -/
def addPairsInner (s : GameSeeder α) (p : α) : List α → StResult (GameSeeder α)
  | [] => .ok s
  | q :: qs =>
    if p = q then addPairsInner s p qs
    else if s.matrix p q = 0 ∧ q ∉ s.registered then .err .invalidPlayer s
    else addPairsInner { s with matrix := bumpMatrix s.matrix p q } p qs

/-- Outer loop of add_played_game: for p in game, raise InvalidPlayer if p is
unknown, else run the inner loop over the whole game. -/
def addPairsOuter (g : List α) : GameSeeder α → List α → StResult (GameSeeder α)
  | s, [] => .ok s
  | s, p :: ps =>
    if p ∉ s.registered then .err .invalidPlayer s
    else
      match addPairsInner s p g with
      | .ok s' => addPairsOuter g s' ps
      | .err e s' => .err e s'

/-- GameSeeder.add_played_game(game): game is the 7-player Python set, given
as a duplicate-free list in iteration order.  Count check, self-play check,
resolution to mains, pair updates (partial on failure), then games_played
increment. -/
def GameSeeder.add_played_game (s : GameSeeder α) (game : List α) :
    StResult (GameSeeder α) :=
  if game.length ≠ 7 then .err .invalidPlayerCount s
  else if s.self_collision game then .err .invalidPlayer s
  else
    match addPairsOuter (s.replaceDuplicates game) s (s.replaceDuplicates game) with
    | .ok s' => .ok { s' with games_played := s'.games_played + 1 }
    | .err e s' => .err e s'

/-- The sum over ordered pairs p ≠ q of the resolved game of matrix[p][q]
(an absent entry contributes 0: its KeyError is caught and ignored). -/
def GameSeeder.sumPairs (s : GameSeeder α) (g : List α) : Nat :=
  (g.map (fun p =>
    ((g.filter (fun q => decide (q ≠ p))).map (fun q => s.matrix p q)).sum)).sum

/-- GameSeeder._fitness_score(game): self-play check, resolution, registration
check for every resolved member (the source checks each p as the outer
summation loop reaches it; the outcome — this error or the full sum — is
identical), then the ordered-pair sum. -/
def GameSeeder.fitness_score (s : GameSeeder α) (game : List α) :
    Except SeedErr Nat :=
  if s.self_collision game then .error .invalidPlayer
  else
    if (s.replaceDuplicates game).all (fun p => decide (p ∈ s.registered)) then
      .ok (s.sumPairs (s.replaceDuplicates game))
    else .error .invalidPlayer

/-- GameSeeder._set_fitness(games): sum of the per-game scores; the first
raise wins. -/
def GameSeeder.set_fitness (s : GameSeeder α) : List (List α) → Except SeedErr Nat
  | [] => .ok 0
  | g :: gs =>
    match s.fitness_score g with
    | .error e => .error e
    | .ok f =>
      match s.set_fitness gs with
      | .error e => .error e
      | .ok fs => .ok (f + fs)

/-- GameSeeder._assign_players_to_games_randomly(players).  players, discards
and the game under construction are Python sets modelled as duplicate-free
lists; rand is the random.choice oracle (at counter t it picks index
rand t mod size).  Except.error () is the internal _AssignmentFailed raised
when the pool empties with a nonempty discard buffer; none means the fuel
ran out (the source loop always terminates, so fuel only bounds the
modelled recursion). -/
def GameSeeder.assign_randomly (s : GameSeeder α) (rand : Nat → Nat) :
    Nat → Nat → List α → List α → List α → List (List α) →
    Option (Except Unit (List (List α)) × Nat)
  | 0, _, _, _, _, _ => none
  | _ + 1, t, [], discards, _, res =>
    some (if discards.isEmpty then (.ok res, t) else (.error (), t))
  | fuel + 1, t, p0 :: ps, discards, game, res =>
    let i := rand t % (p0 :: ps).length
    let p := (p0 :: ps).getD i p0
    let players' := (p0 :: ps).eraseIdx i
    if s.duplicate_in_game game p then
      s.assign_randomly rand fuel (t + 1) players' (p :: discards) game res
    else
      if (p :: game).length = 7 then
        s.assign_randomly rand fuel (t + 1) (players' ++ discards) [] []
          (res ++ [p :: game])
      else
        s.assign_randomly rand fuel (t + 1) players' discards (p :: game) res

/-- GameSeeder._assign_players_wrapper(players): retry the construction until
it succeeds; attempts is fuel for the unbounded retry loop. -/
def GameSeeder.assign_players_wrapper (s : GameSeeder α) (rand : Nat → Nat) :
    Nat → Nat → Nat → List α → Option (List (List α) × Nat)
  | 0, _, _, _ => none
  | attempts + 1, fuel, t, players =>
    match s.assign_randomly rand fuel t players [] [] [] with
    | none => none
    | some (.ok res, t') => some (res, t')
    | some (.error _, t') => s.assign_players_wrapper rand attempts fuel t' players

/-- The iteration loop of _improve_fitness.  games is the walk state,
best_set and best_fitness the best snapshot so far.  Oracle uses: rand t and
rand (t+1) choose the two games, rand (t+2) and rand (t+3) choose the member
each set.pop removes.  random.choice on an empty games list raises
IndexError (none); when both choices name the same Python set the two pops
and two adds restore it unchanged (popping a set with fewer than two members
would raise KeyError, none); a swap whose _set_fitness raises InvalidPlayer
is undone exactly; otherwise the walk continues from the swapped state and
the snapshot is updated on strict improvement. -/
def GameSeeder.improve_loop (s : GameSeeder α) (rand : Nat → Nat) :
    Nat → Nat → List (List α) → List (List α) → Nat →
    Option (List (List α) × Nat × Nat)
  | 0, t, _, best_set, best_fitness => some (best_set, best_fitness, t)
  | iters + 1, t, games, best_set, best_fitness =>
    match games with
    | [] => none
    | _ :: _ =>
      let n := games.length
      let i1 := rand t % n
      let i2 := rand (t + 1) % n
      let g1 := games.getD i1 []
      let g2 := games.getD i2 []
      if i1 = i2 then
        if g1.length < 2 then none
        else
          match s.set_fitness games with
          | .error _ => s.improve_loop rand iters (t + 4) games best_set best_fitness
          | .ok fitness =>
            if fitness < best_fitness then
              s.improve_loop rand iters (t + 4) games games fitness
            else
              s.improve_loop rand iters (t + 4) games best_set best_fitness
      else
        match g1, g2 with
        | [], _ => none
        | _, [] => none
        | a1 :: _, a2 :: _ =>
          let j1 := rand (t + 2) % g1.length
          let p1 := g1.getD j1 a1
          let j2 := rand (t + 3) % g2.length
          let p2 := g2.getD j2 a2
          let g1e := g1.eraseIdx j1
          let g2e := g2.eraseIdx j2
          let g1n := if p2 ∈ g1e then g1e else p2 :: g1e
          let g2n := if p1 ∈ g2e then g2e else p1 :: g2e
          let games' := (games.set i1 g1n).set i2 g2n
          match s.set_fitness games' with
          | .error _ => s.improve_loop rand iters (t + 4) games best_set best_fitness
          | .ok fitness =>
            if fitness < best_fitness then
              s.improve_loop rand iters (t + 4) games' games' fitness
            else
              s.improve_loop rand iters (t + 4) games' best_set best_fitness

/-- GameSeeder._improve_fitness(games): the initial best snapshot is a deep
copy of games with its fitness; a raise from that initial _set_fitness call
propagates out (modelled, like the other non-Except crashes, as none). -/
def GameSeeder.improve_fitness (s : GameSeeder α) (rand : Nat → Nat) (t : Nat)
    (games : List (List α)) : Option (List (List α) × Nat × Nat) :=
  match s.set_fitness games with
  | .error _ => none
  | .ok f0 => s.improve_loop rand s.iterations t games games f0

/-- The omission loop of _player_pool: membership check, then set removal. -/
def poolRemove : List α → List α → Except SeedErr (List α)
  | players, [] => .ok players
  | players, p :: ps =>
    if p ∈ players then poolRemove (players.erase p) ps
    else .error .invalidPlayer

/-- GameSeeder._player_pool(omitting_players): the union of the known players
and the duplicate keys (a set: deduplicated), minus the omitted ones. -/
def GameSeeder.player_pool (s : GameSeeder α) (omitting : List α) :
    Except SeedErr (List α) :=
  poolRemove ((s.registered ++ s.dupKeys).dedup) omitting

/-- GameSeeder._seed_games(omitting_players): pool, multiple-of-seven check,
construction with retries, then — unless no game has been recorded, in which
case the fitness is 0 and no improvement pass runs — the improvement pass. -/
def GameSeeder.seed_games_aux (s : GameSeeder α) (rand : Nat → Nat)
    (attempts fuel t : Nat) (omitting : List α) :
    Option (Except SeedErr (List (List α) × Nat) × Nat) :=
  match s.player_pool omitting with
  | .error e => some (.error e, t)
  | .ok players =>
    if players.length % 7 ≠ 0 then some (.error .invalidPlayerCount, t)
    else
      match s.assign_players_wrapper rand attempts fuel t players with
      | none => none
      | some (res, t') =>
        if s.games_played = 0 then some (.ok (res, 0), t')
        else
          match s.improve_fitness rand t' res with
          | none => none
          | some (best, fit, t'') => some (.ok (best, fit), t'')

/-- The body of the combination loop of _all_possible_seedings: recurse on the
pool minus the chosen game (p2.remove(p) for p in game), raise the first
error, and append the chosen game to every sub-seeding.  recur is the
recursive call. -/
def apsStep (recur : List α → Option (Except SeedErr (List (List (List α)))))
    (players game : List α)
    (acc : Option (Except SeedErr (List (List (List α))))) :
    Option (Except SeedErr (List (List (List α)))) :=
  match recur (game.foldl (fun l p => l.erase p) players) with
  | none => none
  | some (.error e) => some (.error e)
  | some (.ok subs) =>
    match acc with
    | none => none
    | some (.error e) => some (.error e)
    | some (.ok rest) => some (.ok (subs.map (fun sdg => sdg ++ [game]) ++ rest))

/-- GameSeeder._all_possible_seedings(players), with fuel for the recursion on
a 7-smaller pool: every way to choose the first game (itertools.combinations
of 7, i.e. the length-7 sublists) paired with every seeding of the remaining
players; each sub-seeding gets the chosen game appended. -/
def GameSeeder.all_possible_seedings (s : GameSeeder α) :
    Nat → List α → Option (Except SeedErr (List (List (List α))))
  | 0, _ => none
  | fuel + 1, players =>
    if players.length % 7 ≠ 0 then some (.error .invalidPlayerCount)
    else if players.length = 7 then some (.ok [[players]])
    else
      (players.sublistsLen 7).foldr
        (apsStep (s.all_possible_seedings fuel) players) (some (.ok []))

/-- The starts loop of seed_games: n calls to _seed_games, collecting the
(seeding, fitness) pairs. -/
def GameSeeder.seed_games_starts (s : GameSeeder α) (rand : Nat → Nat)
    (attempts fuel : Nat) (omitting : List α) :
    Nat → Nat → Option (Except SeedErr (List (List (List α) × Nat)) × Nat)
  | 0, t => some (.ok [], t)
  | n + 1, t =>
    match s.seed_games_aux rand attempts fuel t omitting with
    | none => none
    | some (.error e, t') => some (.error e, t')
    | some (.ok sf, t') =>
      match s.seed_games_starts rand attempts fuel omitting n t' with
      | none => none
      | some (.error e, t'') => some (.error e, t'')
      | some (.ok rest, t'') => some (.ok (sf :: rest), t'')

/-- GameSeeder.seed_games(omitting_players).  The RANDOM path (also taken in
EXHAUSTIVE mode when no game has been recorded) makes starts calls to
_seed_games — exactly one when no game has been recorded — sorts the
(seeding, fitness) pairs by fitness (stable) and returns the first seeding;
seedings[0] on an empty list is Python IndexError.  The EXHAUSTIVE path
scores every enumerated seeding, skipping those whose scoring raises
InvalidPlayer. -/
def GameSeeder.seed_games (s : GameSeeder α) (rand : Nat → Nat)
    (attempts fuel t : Nat) (omitting : List α) :
    Option (Except SeedErr (List (List α)) × Nat) :=
  if s.games_played = 0 ∨ s.seed_method = SeedMethod.RANDOM then
    match s.seed_games_starts rand attempts fuel omitting
        (if s.games_played > 0 then s.starts else 1) t with
    | none => none
    | some (.error e, t') => some (.error e, t')
    | some (.ok seedings, t') =>
      match sortByKey Prod.snd seedings with
      | [] => some (.error .indexError, t')
      | best :: _ => some (.ok best.1, t')
  else
    match s.player_pool omitting with
    | .error e => some (.error e, t)
    | .ok players =>
      match s.all_possible_seedings fuel players with
      | none => none
      | some (.error e) => some (.error e, t)
      | some (.ok alls) =>
        match sortByKey Prod.snd (alls.filterMap (fun sdg =>
            match s.set_fitness sdg with
            | .error _ => none
            | .ok f => some (sdg, f))) with
        | [] => some (.error .indexError, t)
        | best :: _ => some (.ok best.1, t)

/-- The number of distinct unordered pairs of a duplicate-free list whose
co-play count is positive.  Modelled from the spec wording for C3: the
"number of previously-co-occurring pairs within the table, counting each
pair once"; used to compare the spec's description with what
_fitness_score computes. -/
def GameSeeder.coPairsCount (s : GameSeeder α) : List α → Nat
  | [] => 0
  | p :: l => (l.filter (fun q => decide (0 < s.matrix p q))).length + s.coPairsCount l

/-- Concrete states for the closed example theorems: a seeder holding the
given players. -/
def mkSeeder (players : List Nat) : GameSeeder Nat :=
  match players.foldlM GameSeeder.add_player
      (GameSeeder.init 1 1000 SeedMethod.RANDOM) with
  | .ok s => s
  | .error _ => GameSeeder.init 1 1000 SeedMethod.RANDOM

def exSeeder7 : GameSeeder Nat := mkSeeder [0, 1, 2, 3, 4, 5, 6]

def exSeeder6 : GameSeeder Nat := mkSeeder [0, 1, 2, 3, 4, 5]

/-- exSeeder7 with the table {0,…,6} recorded once. -/
def exSeeder7a : GameSeeder Nat :=
  match exSeeder7.add_played_game [0, 1, 2, 3, 4, 5, 6] with
  | .ok s => s
  | .err _ s => s

/-- exSeeder7 with the table {0,…,6} recorded twice. -/
def exSeeder7b : GameSeeder Nat :=
  match exSeeder7a.add_played_game [0, 1, 2, 3, 4, 5, 6] with
  | .ok s => s
  | .err _ s => s

/-- Result of recording a table with the unknown player 6 on exSeeder6. -/
def exC10res : StResult (GameSeeder Nat) :=
  exSeeder6.add_played_game [0, 1, 2, 3, 4, 5, 6]

/-- The state left behind by that failed call. -/
def exC10state : GameSeeder Nat :=
  match exC10res with
  | .ok s => s
  | .err _ s => s

def exSeederA : GameSeeder Nat := mkSeeder [0]

/-- exSeederA with 1 registered as a duplicate of 0. -/
def exSeederDup : GameSeeder Nat :=
  match exSeederA.duplicate_player 0 1 with
  | .ok s => s
  | .error _ => exSeederA

/-- Invariant of the improvement walk: the games hold the multiset P of pool
members exactly once each, in tables of seven. -/
def PartGames {α : Type} (P : Multiset α) (games : List (List α)) : Prop :=
  ((games.flatten : Multiset α) = P) ∧ games.flatten.Nodup ∧ ∀ g ∈ games, g.length = 7

/-! Lemmas about the enumeration of power assignments. -/

theorem availPowers_mono (s : PowerAssignment α β) (used : List β) (power w : β)
    (h : w ∈ availPowers s (used ++ [power])) : w ∈ availPowers s used := by
  simp only [availPowers, List.mem_filter, decide_eq_true_iff, List.mem_append,
    List.mem_singleton] at *
  exact ⟨h.1, fun hw => h.2 (Or.inl hw)⟩

theorem availPowers_not_used (s : PowerAssignment α β) (used : List β) (power w : β)
    (h : w ∈ availPowers s (used ++ [power])) : w ≠ power := by
  simp only [availPowers, List.mem_filter, decide_eq_true_iff, List.mem_append,
    List.mem_singleton] at h
  exact fun hw => h.2 (Or.inr hw)

theorem availPowers_of_ne (s : PowerAssignment α β) (used : List β) (power w : β)
    (hne : w ≠ power) (h : w ∈ availPowers s used) : w ∈ availPowers s (used ++ [power]) := by
  simp only [availPowers, List.mem_filter, decide_eq_true_iff, List.mem_append,
    List.mem_singleton] at *
  exact ⟨h.1, fun hw => hw.elim h.2 hne⟩

theorem arpLoop_sound (s : PowerAssignment α β)
    (rec : List β → List α → Nat → Option (List (List (α × β)) × Nat))
    (used : List β) (player : α) (rem : List α)
    (hrec : ∀ power t subs t', power ∈ availPowers s used →
      rec (used ++ [power]) rem t = some (subs, t') →
      ∀ a ∈ subs, ArpSound s (used ++ [power]) rem a) :
    ∀ powers t out t', (∀ p ∈ powers, p ∈ availPowers s used) →
      arpLoop rec used player rem powers t = some (out, t') →
      ∀ a ∈ out, ArpSound s used (player :: rem) a := by
  intro powers
  induction powers with
  | nil =>
    intro t out t' _ h a ha
    simp only [arpLoop] at h
    cases h
    simp at ha
  | cons power rest ih =>
    intro t out t' hp h a ha
    simp only [arpLoop] at h
    by_cases hrem : rem.isEmpty
    · rw [if_pos hrem] at h
      rw [List.isEmpty_iff] at hrem
      cases hloop : arpLoop rec used player rem rest t with
      | none => rw [hloop] at h; cases h
      | some res =>
        obtain ⟨others, t₁⟩ := res
        rw [hloop] at h
        dsimp only at h
        cases h
        rcases List.mem_cons.mp ha with rfl | hmem
        · refine ⟨?_, ?_, ?_⟩
          · simp [hrem]
          · simp
          · intro v hv
            simp only [List.map_cons, List.map_nil, List.mem_singleton] at hv
            rw [hv]
            exact hp power (List.mem_cons_self _ _)
        · exact ih t others t' (fun p hpmem => hp p (List.mem_cons_of_mem _ hpmem)) hloop a hmem
    · rw [if_neg hrem] at h
      cases hr : rec (used ++ [power]) rem t with
      | none => rw [hr] at h; cases h
      | some res =>
        obtain ⟨subs, t₁⟩ := res
        rw [hr] at h
        dsimp only at h
        cases hloop : arpLoop rec used player rem rest t₁ with
        | none => rw [hloop] at h; cases h
        | some res2 =>
          obtain ⟨others, t₂⟩ := res2
          rw [hloop] at h
          dsimp only at h
          cases h
          rcases List.mem_append.mp ha with hmem | hmem
          · obtain ⟨suba, hsuba, rfl⟩ := List.mem_map.mp hmem
            have hpavail : power ∈ availPowers s used := hp power (List.mem_cons_self _ _)
            obtain ⟨hfst, hsnd, hmemv⟩ := hrec power t subs t₁ hpavail hr suba hsuba
            refine ⟨?_, ?_, ?_⟩
            · simp [hfst]
            · rw [List.map_append]
              simp only [List.map_cons, List.map_nil]
              apply List.Nodup.append hsnd (List.nodup_singleton _)
              intro v hv hv'
              rw [List.mem_singleton] at hv'
              exact availPowers_not_used s used power v (hmemv v hv) hv'
            · intro v hv
              rw [List.map_append, List.mem_append] at hv
              rcases hv with hv | hv
              · exact availPowers_mono s used power v (hmemv v hv)
              · simp only [List.map_cons, List.map_nil, List.mem_singleton] at hv
                rw [hv]
                exact hpavail
          · exact ih t₁ others t' (fun p hpmem => hp p (List.mem_cons_of_mem _ hpmem)) hloop a hmem

theorem arp_sound (s : PowerAssignment α β) (sh : Nat → List β → List β)
    (hsh : ∀ t l, (sh t l).Perm l) :
    ∀ fuel used to_players t out t',
      s.assign_remaining_powers sh fuel used to_players t = some (out, t') →
      ∀ a ∈ out, ArpSound s used to_players a := by
  intro fuel
  induction fuel with
  | zero => intro used to_players t out t' h; cases h
  | succ fuel ih =>
    intro used to_players t out t' h
    cases to_players with
    | nil => cases h
    | cons player rem =>
      simp only [PowerAssignment.assign_remaining_powers] at h
      exact arpLoop_sound s _ used player rem
        (fun power t₀ subs t₁ _ hr => ih (used ++ [power]) rem t₀ subs t₁ hr)
        (sh t (availPowers s used)) (t + 1) out t'
        (fun p hp => ((hsh t (availPowers s used)).mem_iff).mp hp) h

theorem arpLoop_complete
    (rec : List β → List α → Nat → Option (List (List (α × β)) × Nat))
    (used : List β) (player : α) (rem : List α) (v : β) (c' : List (α × β))
    (hrem : rem = [] → c' = [])
    (hrec : ∀ t₀ subs t₁, rec (used ++ [v]) rem t₀ = some (subs, t₁) →
      ∃ suba ∈ subs, suba.Perm c') :
    ∀ powers t out t', v ∈ powers →
      arpLoop rec used player rem powers t = some (out, t') →
      ∃ a ∈ out, a.Perm ((player, v) :: c') := by
  intro powers
  induction powers with
  | nil => intro t out t' hv; simp at hv
  | cons power rest ih =>
    intro t out t' hv h
    simp only [arpLoop] at h
    by_cases hre : rem.isEmpty
    · rw [if_pos hre] at h
      have hremnil : rem = [] := List.isEmpty_iff.mp hre
      cases hloop : arpLoop rec used player rem rest t with
      | none => rw [hloop] at h; cases h
      | some res =>
        obtain ⟨others, t₁⟩ := res
        rw [hloop] at h
        dsimp only at h
        cases h
        rcases List.mem_cons.mp hv with rfl | hvmem
        · refine ⟨[(player, v)], List.mem_cons_self _ _, ?_⟩
          rw [hrem hremnil]
        · obtain ⟨a, ha, hap⟩ := ih t others t' hvmem hloop
          exact ⟨a, List.mem_cons_of_mem _ ha, hap⟩
    · rw [if_neg hre] at h
      cases hr : rec (used ++ [power]) rem t with
      | none => rw [hr] at h; cases h
      | some res =>
        obtain ⟨subs, t₁⟩ := res
        rw [hr] at h
        dsimp only at h
        cases hloop : arpLoop rec used player rem rest t₁ with
        | none => rw [hloop] at h; cases h
        | some res2 =>
          obtain ⟨others, t₂⟩ := res2
          rw [hloop] at h
          dsimp only at h
          cases h
          rcases List.mem_cons.mp hv with rfl | hvmem
          · obtain ⟨suba, hsuba, hperm⟩ := hrec t subs t₁ hr
            refine ⟨suba ++ [(player, v)],
              List.mem_append.mpr (Or.inl (List.mem_map.mpr ⟨suba, hsuba, rfl⟩)), ?_⟩
            exact (List.perm_append_singleton _ _).trans (hperm.cons _)
          · obtain ⟨a, ha, hap⟩ := ih t₁ others t' hvmem hloop
            exact ⟨a, List.mem_append.mpr (Or.inr ha), hap⟩

theorem arp_complete (s : PowerAssignment α β) (sh : Nat → List β → List β)
    (hsh : ∀ t l, (sh t l).Perm l) :
    ∀ fuel used to_players t out t',
      s.assign_remaining_powers sh fuel used to_players t = some (out, t') →
      to_players.Nodup →
      ∀ c : List (α × β), (c.map Prod.fst).Perm to_players → (c.map Prod.snd).Nodup →
        (∀ w ∈ c.map Prod.snd, w ∈ availPowers s used) →
        ∃ a ∈ out, a.Perm c := by
  intro fuel
  induction fuel with
  | zero => intro used to_players t out t' h; cases h
  | succ fuel ih =>
    intro used to_players t out t' h hnd c hfst hsnd hwmem
    cases to_players with
    | nil => cases h
    | cons player rem =>
      simp only [PowerAssignment.assign_remaining_powers] at h
      have hplayer : player ∈ c.map Prod.fst := hfst.mem_iff.mpr (List.mem_cons_self _ _)
      obtain ⟨pr, hpr, hpr1⟩ := List.mem_map.mp hplayer
      obtain ⟨p₁, v⟩ := pr
      obtain rfl : p₁ = player := hpr1
      obtain ⟨c', hc⟩ : ∃ c', c.Perm ((p₁, v) :: c') := ⟨_, List.perm_cons_erase hpr⟩
      have hfst' : (c'.map Prod.fst).Perm rem :=
        List.Perm.cons_inv (((hc.map Prod.fst).symm).trans hfst)
      have hsndperm : (c.map Prod.snd).Perm (v :: c'.map Prod.snd) := hc.map Prod.snd
      have hsnd' : (v :: c'.map Prod.snd).Nodup := hsndperm.nodup_iff.mp hsnd
      have hvnotin : v ∉ c'.map Prod.snd := (List.nodup_cons.mp hsnd').1
      have hsndnd : (c'.map Prod.snd).Nodup := (List.nodup_cons.mp hsnd').2
      have hvavail : v ∈ availPowers s used := hwmem v (List.mem_map.mpr ⟨(p₁, v), hpr, rfl⟩)
      have hwmem' : ∀ w ∈ c'.map Prod.snd, w ∈ availPowers s (used ++ [v]) := by
        intro w hw
        have hwc : w ∈ c.map Prod.snd := hsndperm.mem_iff.mpr (List.mem_cons_of_mem _ hw)
        have hwne : w ≠ v := fun he => hvnotin (he ▸ hw)
        exact availPowers_of_ne s used v w hwne (hwmem w hwc)
      have hvpow : v ∈ sh t (availPowers s used) := (hsh t _).mem_iff.mpr hvavail
      have hremnil : rem = [] → c' = [] := by
        intro hre
        subst hre
        have hnil : c'.map Prod.fst = [] := hfst'.eq_nil
        exact List.map_eq_nil_iff.mp hnil
      obtain ⟨a, ha, hap⟩ := arpLoop_complete (s.assign_remaining_powers sh fuel) used p₁ rem
        v c' hremnil
        (fun t₀ subs t₁ hr =>
          ih (used ++ [v]) rem t₀ subs t₁ hr (List.nodup_cons.mp hnd).2
            c' hfst' hsndnd hwmem')
        (sh t (availPowers s used)) (t + 1) out t' hvpow h
      exact ⟨a, ha, hap.trans hc.symm⟩

theorem insertByKey_perm {γ : Type} (key : γ → Nat) (x : γ) (l : List γ) :
    (insertByKey key x l).Perm (x :: l) := by
  induction l with
  | nil => simp [insertByKey]
  | cons y ys ih =>
    simp only [insertByKey]
    by_cases h : key x ≤ key y
    · rw [if_pos h]
    · rw [if_neg h]
      exact (ih.cons y).trans (List.Perm.swap x y ys)

theorem sortByKey_perm {γ : Type} (key : γ → Nat) (l : List γ) :
    (sortByKey key l).Perm l := by
  induction l with
  | nil => simp [sortByKey]
  | cons x xs ih =>
    simp only [sortByKey]
    exact (insertByKey_perm key x _).trans (ih.cons x)

theorem insertByKey_pairwise {γ : Type} (key : γ → Nat) (x : γ) (l : List γ)
    (h : l.Pairwise (fun a b => key a ≤ key b)) :
    (insertByKey key x l).Pairwise (fun a b => key a ≤ key b) := by
  induction l with
  | nil => simp [insertByKey]
  | cons y ys ih =>
    simp only [insertByKey]
    rcases List.pairwise_cons.mp h with ⟨hy, hys⟩
    by_cases hxy : key x ≤ key y
    · rw [if_pos hxy]
      refine List.pairwise_cons.mpr ⟨?_, h⟩
      intro z hz
      rcases List.mem_cons.mp hz with rfl | hz'
      · exact hxy
      · exact le_trans hxy (hy z hz')
    · rw [if_neg hxy]
      refine List.pairwise_cons.mpr ⟨?_, ih hys⟩
      intro z hz
      have hz' : z ∈ x :: ys := (insertByKey_perm key x ys).mem_iff.mp hz
      rcases List.mem_cons.mp hz' with rfl | hz''
      · exact Nat.le_of_not_le hxy
      · exact hy z hz''

theorem sortByKey_pairwise {γ : Type} (key : γ → Nat) (l : List γ) :
    (sortByKey key l).Pairwise (fun a b => key a ≤ key b) := by
  induction l with
  | nil => simp [sortByKey]
  | cons x xs ih => exact insertByKey_pairwise key x _ ih

theorem sortByKey_head_min {γ : Type} (key : γ → Nat) (l rest : List γ) (b : γ)
    (h : sortByKey key l = b :: rest) :
    b ∈ l ∧ ∀ x ∈ l, key b ≤ key x := by
  have hperm := sortByKey_perm key l
  have hmem : b ∈ l := hperm.mem_iff.mp (by rw [h]; exact List.mem_cons_self b rest)
  refine ⟨hmem, ?_⟩
  have hsorted := sortByKey_pairwise key l
  rw [h] at hsorted
  intro x hx
  have hx' : x ∈ b :: rest := by rw [← h]; exact hperm.mem_iff.mpr hx
  rcases List.mem_cons.mp hx' with rfl | hx''
  · exact le_refl _
  · exact (List.pairwise_cons.mp hsorted).1 x hx''

theorem calculate_group_fitness_perm (s : PowerAssignment α β) (a c : List (α × β))
    (h : a.Perm c) (grouping : List (List β)) :
    s.calculate_group_fitness a grouping = s.calculate_group_fitness c grouping :=
  (h.map _).sum_eq

theorem calculate_fitness_perm (s : PowerAssignment α β) (a c : List (α × β))
    (h : a.Perm c) : s.calculate_fitness a = s.calculate_fitness c :=
  (h.map _).sum_eq

theorem compositeScore_perm (s : PowerAssignment α β) (a c : List (α × β))
    (h : a.Perm c) : s.compositeScore a = s.compositeScore c := by
  unfold PowerAssignment.compositeScore
  rw [calculate_fitness_perm s a c h]
  congr 1
  congr 1
  apply List.map_congr_left
  intro gw _
  rw [calculate_group_fitness_perm s a c h]

theorem filter_length_appendHistory (f : α → List β) (player : α) (power : β)
    (k : α) (p : β → Bool) :
    ((f k).filter p).length ≤
      ((Function.update f player (f player ++ [power]) k).filter p).length := by
  by_cases hk : k = player
  · subst hk
    rw [Function.update_same, List.filter_append, List.length_append]
    exact Nat.le_add_right _ _
  · rw [Function.update_noteq hk]

theorem calculate_group_fitness_appendHistory (s : PowerAssignment α β)
    (player : α) (power : β) (a : List (α × β)) (grouping : List (List β)) :
    s.calculate_group_fitness a grouping ≤
      (s.appendHistory player power).calculate_group_fitness a grouping := by
  apply List.sum_le_sum
  intro kv _
  exact filter_length_appendHistory s.previous_games player power kv.1 _

theorem calculate_fitness_appendHistory (s : PowerAssignment α β)
    (player : α) (power : β) (a : List (α × β)) :
    s.calculate_fitness a ≤ (s.appendHistory player power).calculate_fitness a := by
  apply List.sum_le_sum
  intro kv _
  exact filter_length_appendHistory s.previous_games player power kv.1 _

/-- Pointwise monotonicity: enlarging one player's history can only raise the
composite score of any fixed assignment. -/
theorem compositeScore_appendHistory_le (s : PowerAssignment α β) (player : α)
    (power : β) (a : List (α × β)) :
    s.compositeScore a ≤ (s.appendHistory player power).compositeScore a := by
  apply Nat.add_le_add
  · apply List.sum_le_sum
    intro gw _
    exact Nat.mul_le_mul_left gw.2 (calculate_group_fitness_appendHistory s player power a gw.1)
  · exact calculate_fitness_appendHistory s player power a

/-- Whenever best_power_assignment returns normally (for any outcome of the
shuffle oracle, with duplicate-free players and powers) the returned
assignment is a bijection between the players and the powers whose composite
score is minimal among all such bijections.  Shared helper carrying the whole
argument. -/
theorem bpa_minimal_aux (s : PowerAssignment α β)
    (sh : Nat → List β → List β) (hsh : ∀ t l, (sh t l).Perm l)
    (fuel t : Nat) (for_players : List α)
    (hnd : for_players.Nodup) (hpw : s.all_powers.Nodup) (b : List (α × β))
    (h : s.best_power_assignment sh fuel t for_players = .ok b) :
    (b.map Prod.fst).Perm for_players ∧ (b.map Prod.snd).Perm s.all_powers ∧
      ∀ c : List (α × β), (c.map Prod.fst).Perm for_players →
        (c.map Prod.snd).Perm s.all_powers →
        s.compositeScore b ≤ s.compositeScore c := by
  unfold PowerAssignment.best_power_assignment at h
  by_cases hlen : for_players.length ≠ s.all_powers.length
  · rw [if_pos hlen] at h; cases h
  rw [if_neg hlen] at h
  push_neg at hlen
  have havail : availPowers s [] = s.all_powers := by
    unfold availPowers
    rw [List.dedup_eq_self.mpr hpw]
    simp
  cases harp : s.assign_remaining_powers sh fuel [] for_players t with
  | none => rw [harp] at h; cases h
  | some res =>
    obtain ⟨assignments, tf⟩ := res
    rw [harp] at h
    dsimp only at h
    cases hsort : sortByKey Prod.snd (assignments.map (fun a => (a, s.compositeScore a))) with
    | nil => rw [hsort] at h; cases h
    | cons best rest =>
      rw [hsort] at h
      dsimp only at h
      cases h
      obtain ⟨hbmem, hbmin⟩ := sortByKey_head_min Prod.snd _ rest best hsort
      obtain ⟨a, hamem, haeq⟩ := List.mem_map.mp hbmem
      obtain ⟨hafst, hasnd, hamemv⟩ :=
        arp_sound s sh hsh fuel [] for_players t assignments tf harp a hamem
      have hb1 : best.1 = a := by rw [← haeq]
      have hfstperm : (best.1.map Prod.fst).Perm for_players := by
        rw [hb1, hafst]
        exact List.reverse_perm for_players
      have hlena : (a.map Prod.snd).length = s.all_powers.length := by
        have h1 : (a.map Prod.fst).length = for_players.length := by
          rw [hafst, List.length_reverse]
        rw [List.length_map] at h1 ⊢
        rw [h1]
        exact hlen
      have hsndperm : (best.1.map Prod.snd).Perm s.all_powers := by
        rw [hb1]
        refine (List.Nodup.subperm hasnd ?_).perm_of_length_le (le_of_eq hlena.symm)
        intro w hw
        rw [← havail]
        exact hamemv w hw
      refine ⟨hfstperm, hsndperm, ?_⟩
      intro c hcf hcs
      have hcnd : (c.map Prod.snd).Nodup := hcs.nodup_iff.mpr hpw
      have hcw : ∀ w ∈ c.map Prod.snd, w ∈ availPowers s [] := by
        intro w hw
        rw [havail]
        exact hcs.mem_iff.mp hw
      obtain ⟨a', ha', hperm⟩ :=
        arp_complete s sh hsh fuel [] for_players t assignments tf harp hnd c hcf hcnd hcw
      have hle : best.2 ≤ s.compositeScore a' :=
        hbmin (a', s.compositeScore a') (List.mem_map.mpr ⟨a', ha', rfl⟩)
      have hb2 : best.2 = s.compositeScore a := by rw [← haeq]
      calc s.compositeScore best.1 = s.compositeScore a := by rw [hb1]
        _ = best.2 := hb2.symm
        _ ≤ s.compositeScore a' := hle
        _ = s.compositeScore c := compositeScore_perm s a' c hperm

/-- C2 (amended): whenever best_power_assignment returns normally (for any
outcome of the shuffle oracle, with duplicate-free players and powers) the
returned assignment is a bijection between the players and the powers, and
its SOURCE composite score — history entries counted with multiplicity, not
the per-player 0/1 counts the spec describes — is at most the source
composite score of every bijection between those players and powers. -/
theorem best_power_assignment_minimal (s : PowerAssignment α β)
    (sh : Nat → List β → List β) (hsh : ∀ t l, (sh t l).Perm l)
    (fuel t : Nat) (for_players : List α)
    (hnd : for_players.Nodup) (hpw : s.all_powers.Nodup) (b : List (α × β))
    (h : s.best_power_assignment sh fuel t for_players = .ok b) :
    (b.map Prod.fst).Perm for_players ∧ (b.map Prod.snd).Perm s.all_powers ∧
      ∀ c : List (α × β), (c.map Prod.fst).Perm for_players →
        (c.map Prod.snd).Perm s.all_powers →
        s.compositeScore b ≤ s.compositeScore c :=
  bpa_minimal_aux s sh hsh fuel t for_players hnd hpw b h

/-- A second divergence of best_power_assignment from the claim: with zero
declared powers the empty player list has matching length, yet the call
raises IndexError (to_players[0] in _assign_remaining_powers on the empty
list) instead of returning the (empty) bijection. -/
theorem best_power_assignment_empty_indexError :
    (PowerAssignment.init (α := Nat) (β := Nat) []).best_power_assignment
      (fun _ l => l) 5 0 [] = .error .indexError := rfl

/-- C2 counterexample: the claim's composite counts each player at most once
per clause, but the source counts history entries with multiplicity, and the
two scores have different minimizers.  With powers {10, 20}, player 1's
history [10, 20, 20, 20] and player 2's history [20], best_power_assignment
(identity shuffles) returns the dict {2: 20, 1: 10} — the source-composite
minimizer (2 against 3) — although the rival bijection {2: 10, 1: 20} has the
strictly smaller claim-composite, 1 against the returned assignment's 2. -/
theorem best_power_assignment_spec_composite_counterexample :
    exPA2.best_power_assignment (fun _ l => l) 5 0 [1, 2] = .ok [(2, 20), (1, 10)] ∧
      (([(2, 10), (1, 20)] : List (Nat × Nat)).map Prod.fst).Perm [1, 2] ∧
      (([(2, 10), (1, 20)] : List (Nat × Nat)).map Prod.snd).Perm exPA2.all_powers ∧
      exPA2.specCompositeScore [(2, 10), (1, 20)] = 1 ∧
      exPA2.specCompositeScore [(2, 20), (1, 10)] = 2 :=
  ⟨rfl, by decide, by decide, by decide, by decide⟩

/-- Witness for best_power_assignment_minimal at a concrete instance. -/
theorem best_power_assignment_minimal_witness :
    (PowerAssignment.init (α := Nat) [10, 20]).best_power_assignment
        (fun _ l => l) 5 0 [1, 2] = .ok [(2, 20), (1, 10)] ∧
      (([(2, 20), (1, 10)] : List (Nat × Nat)).map Prod.fst).Perm [1, 2] ∧
      (([(2, 20), (1, 10)] : List (Nat × Nat)).map Prod.snd).Perm
        (PowerAssignment.init (α := Nat) [10, 20]).all_powers ∧
      ∀ c : List (Nat × Nat), (c.map Prod.fst).Perm [1, 2] →
        (c.map Prod.snd).Perm (PowerAssignment.init (α := Nat) [10, 20]).all_powers →
        (PowerAssignment.init (α := Nat) [10, 20]).compositeScore [(2, 20), (1, 10)] ≤
          (PowerAssignment.init (α := Nat) [10, 20]).compositeScore c :=
  ⟨rfl, best_power_assignment_minimal _ _ (fun _ l => List.Perm.refl l) 5 0 [1, 2]
    (by decide) (by decide) _ rfl⟩

/-- C6: enlarging one player's recorded history never lowers the minimum
achievable composite score: whenever both calls return normally (under any
outcomes of the random source), the score of the best assignment before the
addition is at most the score of the best assignment after it. -/
theorem best_assignment_monotone_history (s : PowerAssignment α β)
    (sh sh' : Nat → List β → List β)
    (hsh : ∀ t l, (sh t l).Perm l) (hsh' : ∀ t l, (sh' t l).Perm l)
    (fuel fuel' t t' : Nat) (for_players : List α)
    (hnd : for_players.Nodup) (hpw : s.all_powers.Nodup)
    (player : α) (power : β) (b b' : List (α × β))
    (h : s.best_power_assignment sh fuel t for_players = .ok b)
    (h' : (s.appendHistory player power).best_power_assignment sh' fuel' t' for_players
      = .ok b') :
    s.compositeScore b ≤ (s.appendHistory player power).compositeScore b' := by
  obtain ⟨_, _, hmin⟩ :=
    bpa_minimal_aux s sh hsh fuel t for_players hnd hpw b h
  obtain ⟨hbf', hbs', _⟩ :=
    bpa_minimal_aux (s.appendHistory player power) sh' hsh' fuel' t'
      for_players hnd hpw b' h'
  exact le_trans (hmin b' hbf' hbs') (compositeScore_appendHistory_le s player power b')

/-- Witness for best_assignment_monotone_history at a concrete instance. -/
theorem best_assignment_monotone_history_witness :
    (PowerAssignment.init (α := Nat) [10, 20]).best_power_assignment
        (fun _ l => l) 5 0 [1, 2] = .ok [(2, 20), (1, 10)] ∧
      ((PowerAssignment.init (α := Nat) [10, 20]).appendHistory 1 10).best_power_assignment
        (fun _ l => l) 5 0 [1, 2] = .ok [(2, 10), (1, 20)] ∧
      (PowerAssignment.init (α := Nat) [10, 20]).compositeScore [(2, 20), (1, 10)] ≤
        ((PowerAssignment.init (α := Nat) [10, 20]).appendHistory 1 10).compositeScore
          [(2, 10), (1, 20)] :=
  ⟨rfl, rfl,
    best_assignment_monotone_history _ _ _ (fun _ l => List.Perm.refl l)
      (fun _ l => List.Perm.refl l) 5 5 0 0 [1, 2] (by decide) (by decide) 1 10 _ _ rfl rfl⟩

/-- C7 counterexample to the claim as stated: a grouping in which power 0
appears in two groups (not a partition) is accepted and registered by
add_grouping. -/
theorem add_grouping_dup_counterexample :
    (PowerAssignment.init (α := Nat) [0, 1]).add_grouping [[0, 1], [0, 1]] 100 =
      .ok { previous_games := fun _ => [], groupings := [([[0, 1], [0, 1]], 100)],
            all_powers := [0, 1] } := rfl

/-- C7 (amended): add_grouping fails with InvalidPower exactly when some power
of the grouping is outside the declared power set, fails with MissingPower
exactly when all powers are known but some declared power occurs in no group,
and otherwise (even when powers are duplicated across or within groups)
registers the grouping by appending it. -/
theorem add_grouping_checks (s : PowerAssignment α β) (grouping : List (List β))
    (value : Nat) :
    (s.add_grouping grouping value = .error .invalidPower ↔
      ¬ (∀ g ∈ grouping, ∀ p ∈ g, p ∈ s.all_powers)) ∧
    (s.add_grouping grouping value = .error .missingPower ↔
      ((∀ g ∈ grouping, ∀ p ∈ g, p ∈ s.all_powers) ∧
        ∃ p ∈ s.all_powers, ∀ g ∈ grouping, p ∉ g)) ∧
    (s.add_grouping grouping value =
        .ok { s with groupings := s.groupings ++ [(grouping, value)] } ↔
      ((∀ g ∈ grouping, ∀ p ∈ g, p ∈ s.all_powers) ∧
        ∀ p ∈ s.all_powers, ∃ g ∈ grouping, p ∈ g)) := by
  unfold PowerAssignment.add_grouping
  by_cases h1 : grouping.all (fun g => g.all (fun p => decide (p ∈ s.all_powers)))
  · have hknown : ∀ g ∈ grouping, ∀ p ∈ g, p ∈ s.all_powers := by
      intro g hg p hp
      exact of_decide_eq_true (List.all_eq_true.mp (List.all_eq_true.mp h1 g hg) p hp)
    rw [if_pos h1]
    by_cases h2 : (s.all_powers.filter
        (fun p => grouping.all (fun g => decide (p ∉ g)))).isEmpty
    · have hcover : ∀ p ∈ s.all_powers, ∃ g ∈ grouping, p ∈ g := by
        intro p hp
        have hnil := List.isEmpty_iff.mp h2
        rw [List.filter_eq_nil_iff] at hnil
        have hnotall := hnil p hp
        by_contra hng
        push_neg at hng
        apply hnotall
        rw [List.all_eq_true]
        intro g hg
        exact decide_eq_true (hng g hg)
      rw [if_pos h2]
      refine ⟨iff_of_false (by simp) (fun hn => hn hknown), ?_, ?_⟩
      · refine iff_of_false (by simp) ?_
        rintro ⟨_, p, hp, hno⟩
        obtain ⟨g, hg, hpg⟩ := hcover p hp
        exact hno g hg hpg
      · exact iff_of_true rfl ⟨hknown, hcover⟩
    · have hmiss : ∃ p ∈ s.all_powers, ∀ g ∈ grouping, p ∉ g := by
        have hne : s.all_powers.filter
            (fun p => grouping.all (fun g => decide (p ∉ g))) ≠ [] := by
          intro hnil
          rw [← List.isEmpty_iff] at hnil
          exact h2 hnil
        obtain ⟨p, hp⟩ := List.exists_mem_of_ne_nil _ hne
        rw [List.mem_filter] at hp
        refine ⟨p, hp.1, ?_⟩
        intro g hg
        exact of_decide_eq_true (List.all_eq_true.mp hp.2 g hg)
      rw [if_neg h2]
      refine ⟨iff_of_false (by simp) (fun hn => hn hknown),
        iff_of_true rfl ⟨hknown, hmiss⟩, ?_⟩
      refine iff_of_false (by simp) ?_
      rintro ⟨_, hcov⟩
      obtain ⟨p, hp, hno⟩ := hmiss
      obtain ⟨g, hg, hpg⟩ := hcov p hp
      exact hno g hg hpg
  · have hnk : ¬ (∀ g ∈ grouping, ∀ p ∈ g, p ∈ s.all_powers) := by
      intro hk
      apply h1
      rw [List.all_eq_true]
      intro g hg
      rw [List.all_eq_true]
      intro p hp
      exact decide_eq_true (hk g hg p hp)
    rw [if_neg h1]
    exact ⟨iff_of_true rfl hnk,
      iff_of_false (by simp) (fun hc => hnk hc.1),
      iff_of_false (by simp) (fun hc => hnk hc.1)⟩

/-- C9: recording a single played power outside the declared power set fails,
but — because the raise statement names the undefined variable p — with
NameError rather than InvalidPower; the history is left unchanged (the check
precedes the mutation). -/
theorem add_power_played_unknown (s : PowerAssignment α β) (for_player : α)
    (power : β) (h : power ∉ s.all_powers) :
    s.add_power_played for_player power = .error .nameError := by
  unfold PowerAssignment.add_power_played
  rw [if_neg h]

/-- Witness for add_power_played_unknown at a concrete instance. -/
theorem add_power_played_unknown_witness :
    (7 : Nat) ∉ ((PowerAssignment.init (α := Nat) [0, 1]).all_powers) ∧
      (PowerAssignment.init (α := Nat) [0, 1]).add_power_played 5 7 =
        .error .nameError :=
  ⟨by decide, add_power_played_unknown _ 5 7 (by decide)⟩

/-! Theorems about game_seeder.py. -/

/-- C8 counterexample to the claim as stated: after registering player 0 and
the duplicate key 1 for it, add_player 1 succeeds — the source only checks
games_played_matrix, not duplicates — so an alias becomes a registered real
participant. -/
theorem add_player_alias_counterexample :
    exSeederA.duplicate_player 0 1 = .ok exSeederDup ∧
    (1 : Nat) ∈ exSeederDup.dupKeys ∧
    exSeederDup.add_player 1 =
      .ok { exSeederDup with registered := exSeederDup.registered ++ [1] } :=
  ⟨rfl, by decide, rfl⟩

/-- C8 (amended): add_player rejects exactly the identities already registered
as real players — an existing duplicate key is not rejected there — while
duplicate_player rejects an unknown main player and any new_key that is
already a player or already a duplicate. -/
theorem add_register_checks (s : GameSeeder α) (p player new_key : α) :
    (s.add_player p = .error .invalidPlayer ↔ p ∈ s.registered) ∧
    ((∃ s', s.add_player p = .ok s') ↔ p ∉ s.registered) ∧
    (s.duplicate_player player new_key = .error .invalidPlayer ↔
      player ∉ s.registered) ∧
    (s.duplicate_player player new_key = .error .invalidKey ↔
      (player ∈ s.registered ∧ (new_key ∈ s.registered ∨ new_key ∈ s.dupKeys))) ∧
    ((∃ s', s.duplicate_player player new_key = .ok s') ↔
      (player ∈ s.registered ∧ new_key ∉ s.registered ∧ new_key ∉ s.dupKeys)) := by
  unfold GameSeeder.add_player GameSeeder.duplicate_player
  by_cases h1 : player ∈ s.registered <;>
    by_cases h2 : new_key ∈ s.registered <;>
      by_cases h3 : new_key ∈ s.dupKeys <;>
        by_cases h4 : p ∈ s.registered <;>
          simp [h1, h2, h3, h4]

/-- C10: add_played_game is not atomic on failure.  On a seeder knowing
players 0–5, recording the 7-player table [0,1,2,3,4,5,6] (6 unknown)
raises InvalidPlayer, and the state left behind has matrix[0][1] = 1 while
matrix[1][0] = 0 — incremented in one direction only, so a failed call can
leave the matrix asymmetric. -/
theorem add_played_game_not_atomic :
    (0 : Nat) ∈ exSeeder6.registered ∧ (6 : Nat) ∉ exSeeder6.registered ∧
    exC10res = .err .invalidPlayer exC10state ∧
    exSeeder6.matrix 0 1 = 0 ∧ exSeeder6.matrix 1 0 = 0 ∧
    exC10state.matrix 0 1 = 1 ∧ exC10state.matrix 1 0 = 0 :=
  ⟨by decide, by decide, rfl, rfl, rfl, rfl, rfl⟩

theorem addPairsInner_ok (p : α) :
    ∀ (qs : List α) (s s' : GameSeeder α), addPairsInner s p qs = .ok s' → qs.Nodup →
      (∀ a b, s'.matrix a b =
        if a = p ∧ b ∈ qs ∧ b ≠ p then s.matrix a b + 1 else s.matrix a b) ∧
      s'.registered = s.registered := by
  intro qs
  induction qs with
  | nil =>
    intro s s' h _
    simp only [addPairsInner] at h
    cases h
    refine ⟨?_, rfl⟩
    intro a b
    rw [if_neg]
    rintro ⟨_, hb, _⟩
    exact List.not_mem_nil b hb
  | cons q qs ih =>
    intro s s' h hnd
    simp only [addPairsInner] at h
    by_cases hpq : p = q
    · rw [if_pos hpq] at h
      obtain ⟨hM, hR⟩ := ih s s' h (List.nodup_cons.mp hnd).2
      refine ⟨?_, hR⟩
      intro a b
      rw [hM a b]
      by_cases hc : a = p ∧ b ∈ qs ∧ b ≠ p
      · rw [if_pos hc, if_pos ⟨hc.1, List.mem_cons_of_mem _ hc.2.1, hc.2.2⟩]
      · rw [if_neg hc, if_neg ?_]
        rintro ⟨ha, hb, hbp⟩
        rcases List.mem_cons.mp hb with hbq | hb'
        · exact hbp (by rw [hbq, ← hpq])
        · exact hc ⟨ha, hb', hbp⟩
    · rw [if_neg hpq] at h
      by_cases hcond : s.matrix p q = 0 ∧ q ∉ s.registered
      · rw [if_pos hcond] at h; cases h
      · rw [if_neg hcond] at h
        have hq : q ∉ qs := (List.nodup_cons.mp hnd).1
        have hqp : q ≠ p := fun he => hpq he.symm
        obtain ⟨hM, hR⟩ := ih _ s' h (List.nodup_cons.mp hnd).2
        refine ⟨?_, hR⟩
        intro a b
        rw [hM a b]
        dsimp only
        simp only [bumpMatrix]
        by_cases hap : a = p
        · by_cases hbq : b = q
          · have hC1 : ¬ (a = p ∧ b ∈ qs ∧ b ≠ p) := fun hc => hq (hbq ▸ hc.2.1)
            have hC2 : a = p ∧ b ∈ q :: qs ∧ b ≠ p :=
              ⟨hap, by rw [hbq]; exact List.mem_cons_self _ _, by rw [hbq]; exact hqp⟩
            rw [if_neg hC1, if_pos hC2, if_pos ⟨hap, hbq⟩, hap, hbq]
          · have hbump : ¬ (a = p ∧ b = q) := fun hc => hbq hc.2
            rw [if_neg hbump]
            by_cases hbin : b ∈ qs ∧ b ≠ p
            · rw [if_pos ⟨hap, hbin.1, hbin.2⟩,
                if_pos ⟨hap, List.mem_cons_of_mem _ hbin.1, hbin.2⟩]
            · have hC1 : ¬ (a = p ∧ b ∈ qs ∧ b ≠ p) := fun hc => hbin ⟨hc.2.1, hc.2.2⟩
              have hC2 : ¬ (a = p ∧ b ∈ q :: qs ∧ b ≠ p) := by
                rintro ⟨_, hb, hbp⟩
                rcases List.mem_cons.mp hb with hbq' | hb'
                · exact hbq hbq'
                · exact hbin ⟨hb', hbp⟩
              rw [if_neg hC1, if_neg hC2]
        · have hbump : ¬ (a = p ∧ b = q) := fun hc => hap hc.1
          have hC1 : ¬ (a = p ∧ b ∈ qs ∧ b ≠ p) := fun hc => hap hc.1
          have hC2 : ¬ (a = p ∧ b ∈ q :: qs ∧ b ≠ p) := fun hc => hap hc.1
          rw [if_neg hbump, if_neg hC1, if_neg hC2]

theorem addPairsOuter_ok (g : List α) :
    ∀ (ps : List α) (s s' : GameSeeder α), addPairsOuter g s ps = .ok s' →
      ps.Nodup → g.Nodup →
      (∀ a b, s'.matrix a b =
        if a ∈ ps ∧ b ∈ g ∧ a ≠ b then s.matrix a b + 1 else s.matrix a b) ∧
      s'.registered = s.registered := by
  intro ps
  induction ps with
  | nil =>
    intro s s' h _ _
    simp only [addPairsOuter] at h
    cases h
    refine ⟨?_, rfl⟩
    intro a b
    rw [if_neg]
    rintro ⟨ha, _, _⟩
    exact List.not_mem_nil a ha
  | cons p ps ih =>
    intro s s' h hnd hg
    simp only [addPairsOuter] at h
    by_cases hreg : p ∉ s.registered
    · rw [if_pos hreg] at h; cases h
    · rw [if_neg hreg] at h
      cases hin : addPairsInner s p g with
      | err e s₁ => rw [hin] at h; dsimp only at h; cases h
      | ok s₁ =>
        rw [hin] at h
        dsimp only at h
        have hps : p ∉ ps := (List.nodup_cons.mp hnd).1
        obtain ⟨hI, hIreg⟩ := addPairsInner_ok p g s s₁ hin hg
        obtain ⟨hM, hR⟩ := ih s₁ s' h (List.nodup_cons.mp hnd).2 hg
        refine ⟨?_, hR.trans hIreg⟩
        intro a b
        rw [hM a b, hI a b]
        by_cases hap : a = p
        · have hC1 : ¬ (a ∈ ps ∧ b ∈ g ∧ a ≠ b) := fun hc => hps (hap ▸ hc.1)
          rw [if_neg hC1]
          by_cases hbg : b ∈ g ∧ b ≠ p
          · have hI1 : a = p ∧ b ∈ g ∧ b ≠ p := ⟨hap, hbg.1, hbg.2⟩
            have hT : a ∈ p :: ps ∧ b ∈ g ∧ a ≠ b :=
              ⟨by rw [hap]; exact List.mem_cons_self _ _, hbg.1,
                fun he => hbg.2 (by rw [← he, hap])⟩
            rw [if_pos hI1, if_pos hT]
          · have hI1 : ¬ (a = p ∧ b ∈ g ∧ b ≠ p) := fun hc => hbg ⟨hc.2.1, hc.2.2⟩
            have hT : ¬ (a ∈ p :: ps ∧ b ∈ g ∧ a ≠ b) := by
              rintro ⟨_, hb, hab⟩
              exact hbg ⟨hb, fun he => hab (by rw [hap, ← he])⟩
            rw [if_neg hI1, if_neg hT]
        · have hI1 : ¬ (a = p ∧ b ∈ g ∧ b ≠ p) := fun hc => hap hc.1
          rw [if_neg hI1]
          by_cases hc : a ∈ ps ∧ b ∈ g ∧ a ≠ b
          · rw [if_pos hc, if_pos ⟨List.mem_cons_of_mem _ hc.1, hc.2⟩]
          · rw [if_neg hc, if_neg ?_]
            rintro ⟨ha, hb, hab⟩
            rcases List.mem_cons.mp ha with hap' | ha'
            · exact hap hap'
            · exact hc ⟨ha', hb, hab⟩

/-- C4: a successful add_played_game increments both directions of the count
for every pair of distinct resolved players by exactly one, leaves every
other entry unchanged, and — provided the two directions were equal
beforehand, as they are in any state reached by successful calls — leaves
the pair's two directions equal. -/
theorem add_played_game_increments (s : GameSeeder α) (game : List α)
    (s' : GameSeeder α) (h : s.add_played_game game = .ok s') :
    (∀ p ∈ s.replaceDuplicates game, ∀ q ∈ s.replaceDuplicates game, p ≠ q →
      s'.matrix p q = s.matrix p q + 1 ∧ s'.matrix q p = s.matrix q p + 1 ∧
        (s.matrix p q = s.matrix q p → s'.matrix p q = s'.matrix q p)) ∧
    (∀ a b, ¬ (a ∈ s.replaceDuplicates game ∧ b ∈ s.replaceDuplicates game ∧ a ≠ b) →
      s'.matrix a b = s.matrix a b) := by
  unfold GameSeeder.add_played_game at h
  by_cases h7 : game.length ≠ 7
  · rw [if_pos h7] at h; cases h
  rw [if_neg h7] at h
  by_cases hcol : s.self_collision game = true
  · rw [if_pos hcol] at h; cases h
  rw [if_neg hcol] at h
  cases hout : addPairsOuter (s.replaceDuplicates game) s (s.replaceDuplicates game) with
  | err e s₁ => rw [hout] at h; dsimp only at h; cases h
  | ok s₁ =>
    rw [hout] at h
    dsimp only at h
    cases h
    have hnd : (s.replaceDuplicates game).Nodup := List.nodup_dedup _
    obtain ⟨hM, _⟩ := addPairsOuter_ok _ _ s s₁ hout hnd hnd
    constructor
    · intro p hp q hq hpq
      dsimp only
      rw [hM p q, hM q p, if_pos ⟨hp, hq, hpq⟩, if_pos ⟨hq, hp, Ne.symm hpq⟩]
      exact ⟨rfl, rfl, fun hsym => by rw [hsym]⟩
    · intro a b hab
      dsimp only
      rw [hM a b, if_neg hab]

set_option maxHeartbeats 1000000 in
/-- Witness for add_played_game_increments at a concrete instance. -/
theorem add_played_game_increments_witness :
    exSeeder7.add_played_game [0, 1, 2, 3, 4, 5, 6] = .ok exSeeder7a ∧
    (0 : Nat) ∈ exSeeder7.replaceDuplicates [0, 1, 2, 3, 4, 5, 6] ∧
    (1 : Nat) ∈ exSeeder7.replaceDuplicates [0, 1, 2, 3, 4, 5, 6] ∧
    (exSeeder7a.matrix 0 1 = exSeeder7.matrix 0 1 + 1 ∧
      exSeeder7a.matrix 1 0 = exSeeder7.matrix 1 0 + 1 ∧
      exSeeder7a.matrix 0 1 = exSeeder7a.matrix 1 0) := by
  have heq : exSeeder7.add_played_game [0, 1, 2, 3, 4, 5, 6] = .ok exSeeder7a := rfl
  have h := (add_played_game_increments exSeeder7 [0, 1, 2, 3, 4, 5, 6] exSeeder7a heq).1
    0 (by decide) 1 (by decide) (by decide)
  exact ⟨heq, by decide, by decide, h.1, h.2.1, h.2.2 (by decide)⟩

theorem sum_map_add {γ : Type} (l : List γ) (f g : γ → Nat) :
    (l.map (fun x => f x + g x)).sum = (l.map f).sum + (l.map g).sum := by
  induction l with
  | nil => rfl
  | cons x xs ih =>
    simp only [List.map_cons, List.sum_cons, ih]
    omega

theorem sum_eq_count_pos {γ : Type} (m : γ → Nat) :
    ∀ l : List γ, (∀ q ∈ l, m q ≤ 1) →
      (l.map m).sum = (l.filter (fun q => decide (0 < m q))).length := by
  intro l
  induction l with
  | nil => intro _; rfl
  | cons q qs ih =>
    intro hle
    have hq := hle q (List.mem_cons_self _ _)
    have hih := ih (fun x hx => hle x (List.mem_cons_of_mem _ hx))
    rw [List.map_cons, List.sum_cons, List.filter_cons, hih]
    rcases Nat.le_one_iff_eq_zero_or_eq_one.mp hq with h0 | h1
    · have hd : decide (0 < m q) = false := by rw [h0]; decide
      rw [hd, h0]
      simp
    · have hd : decide (0 < m q) = true := by rw [h1]; decide
      rw [hd, h1]
      simp only [if_pos]
      rw [List.length_cons]
      omega

theorem replaceDuplicates_length (s : GameSeeder α) (game : List α)
    (hcol : s.self_collision game = false) :
    (s.replaceDuplicates game).length = game.length := by
  unfold GameSeeder.self_collision at hcol
  rw [decide_eq_false_iff_not, not_not] at hcol
  unfold GameSeeder.replaceDuplicates
  rw [List.dedup_eq_self.mpr hcol, List.length_map]

theorem sumPairs_eq_two_mul (s : GameSeeder α) :
    ∀ g : List α, g.Nodup →
      (∀ p ∈ g, ∀ q ∈ g, s.matrix p q = s.matrix q p) →
      (∀ p ∈ g, ∀ q ∈ g, s.matrix p q ≤ 1) →
      s.sumPairs g = 2 * s.coPairsCount g := by
  intro g
  induction g with
  | nil => intro _ _ _; rfl
  | cons a l ih =>
    intro hnd hsym hle
    have hal : a ∉ l := (List.nodup_cons.mp hnd).1
    have hA : ((a :: l).filter (fun q => decide (q ≠ a))) = l := by
      rw [List.filter_cons]
      have hd : decide (a ≠ a) = false := by simp
      rw [hd]
      simp only [Bool.false_eq_true, if_false]
      apply List.filter_eq_self.mpr
      intro q hq
      exact decide_eq_true (fun he => hal (he ▸ hq))
    have hB : ∀ p ∈ l, ((a :: l).filter (fun q => decide (q ≠ p))) =
        a :: l.filter (fun q => decide (q ≠ p)) := by
      intro p hp
      rw [List.filter_cons]
      have hd : decide (a ≠ p) = true :=
        decide_eq_true (fun he => hal (he ▸ hp))
      rw [hd]
      simp
    unfold GameSeeder.sumPairs
    rw [List.map_cons, List.sum_cons, hA]
    have hrows : (l.map (fun p =>
        (((a :: l).filter (fun q => decide (q ≠ p))).map (fun q => s.matrix p q)).sum)).sum
        = (l.map (fun p => s.matrix p a)).sum
          + (l.map (fun p =>
              ((l.filter (fun q => decide (q ≠ p))).map (fun q => s.matrix p q)).sum)).sum := by
      rw [← sum_map_add]
      congr 1
      apply List.map_congr_left
      intro p hp
      rw [hB p hp, List.map_cons, List.sum_cons]
    rw [hrows]
    have hD : (l.map (fun p => s.matrix p a)).sum = (l.map (fun q => s.matrix a q)).sum := by
      congr 1
      apply List.map_congr_left
      intro p hp
      exact hsym p (List.mem_cons_of_mem _ hp) a (List.mem_cons_self _ _)
    rw [hD]
    have hE : (l.map (fun q => s.matrix a q)).sum =
        (l.filter (fun q => decide (0 < s.matrix a q))).length :=
      sum_eq_count_pos (fun q => s.matrix a q) l
        (fun q hq => hle a (List.mem_cons_self _ _) q (List.mem_cons_of_mem _ hq))
    rw [hE]
    have hF : (l.map (fun p =>
        ((l.filter (fun q => decide (q ≠ p))).map (fun q => s.matrix p q)).sum)).sum
        = 2 * s.coPairsCount l :=
      ih (List.nodup_cons.mp hnd).2
        (fun p hp q hq => hsym p (List.mem_cons_of_mem _ hp) q (List.mem_cons_of_mem _ hq))
        (fun p hp q hq => hle p (List.mem_cons_of_mem _ hp) q (List.mem_cons_of_mem _ hq))
    rw [hF]
    show _ = 2 * s.coPairsCount (a :: l)
    simp only [GameSeeder.coPairsCount]
    omega

theorem coPairsCount_le (s : GameSeeder α) :
    ∀ g : List α, s.coPairsCount g ≤ g.length.choose 2 := by
  intro g
  induction g with
  | nil => simp [GameSeeder.coPairsCount]
  | cons a l ih =>
    simp only [GameSeeder.coPairsCount, List.length_cons]
    have h1 : (l.filter (fun q => decide (0 < s.matrix a q))).length ≤ l.length :=
      List.length_filter_le _ _
    have h2 : (l.length + 1).choose 2 = l.length.choose 1 + l.length.choose 2 :=
      Nat.choose_succ_succ _ _
    rw [h2, Nat.choose_one_right]
    omega

set_option maxHeartbeats 1000000 in
/-- C3 counterexample to the claim as stated: record the table {0,…,6} twice,
then score it.  The pair history is valid (double recording is by design),
the table is a valid 7-seat table, yet _fitness_score returns 84: neither
twice the number of distinct previously-co-occurring pairs (42) nor within
the stated 0–42 range. -/
theorem fitness_score_counterexample :
    exSeeder7b.fitness_score [0, 1, 2, 3, 4, 5, 6] = .ok 84 ∧
    2 * exSeeder7b.coPairsCount (exSeeder7b.replaceDuplicates [0, 1, 2, 3, 4, 5, 6]) = 42 ∧
    ¬ (84 ≤ 42) :=
  ⟨rfl, by decide, by decide⟩

/-- C3 (amended): for a valid 7-seat table, _fitness_score returns the sum
over ordered pairs of distinct resolved players of their co-play counts;
when the matrix is symmetric on the resolved table and no pair there has
co-occurred more than once, this equals twice the number of distinct
previously-co-occurring pairs and lies between 0 and 42. -/
theorem fitness_score_amended (s : GameSeeder α) (game : List α) (f : Nat)
    (hlen : game.length = 7)
    (h : s.fitness_score game = .ok f)
    (hsym : ∀ p ∈ s.replaceDuplicates game, ∀ q ∈ s.replaceDuplicates game,
      s.matrix p q = s.matrix q p)
    (hle1 : ∀ p ∈ s.replaceDuplicates game, ∀ q ∈ s.replaceDuplicates game,
      s.matrix p q ≤ 1) :
    f = s.sumPairs (s.replaceDuplicates game) ∧
    f = 2 * s.coPairsCount (s.replaceDuplicates game) ∧
    f ≤ 42 := by
  unfold GameSeeder.fitness_score at h
  by_cases hcol : s.self_collision game = true
  · rw [if_pos hcol] at h; cases h
  rw [if_neg hcol] at h
  by_cases hreg : (s.replaceDuplicates game).all (fun p => decide (p ∈ s.registered)) = true
  · rw [if_pos hreg] at h
    cases h
    have hnd : (s.replaceDuplicates game).Nodup := List.nodup_dedup _
    have h2 := sumPairs_eq_two_mul s (s.replaceDuplicates game) hnd hsym hle1
    refine ⟨rfl, h2, ?_⟩
    rw [h2]
    have hlen7 : (s.replaceDuplicates game).length = 7 := by
      rw [replaceDuplicates_length s game (Bool.not_eq_true _ ▸ hcol), hlen]
    have := coPairsCount_le s (s.replaceDuplicates game)
    rw [hlen7] at this
    have h21 : Nat.choose 7 2 = 21 := by decide
    rw [h21] at this
    omega
  · rw [if_neg hreg] at h
    cases h

set_option maxHeartbeats 1000000 in
/-- Witness for fitness_score_amended at a concrete instance: the table
{0,…,6} recorded once, then scored again: 42 = 2 × 21 ≤ 42. -/
theorem fitness_score_amended_witness :
    exSeeder7a.fitness_score [0, 1, 2, 3, 4, 5, 6] = .ok 42 ∧
    (42 = exSeeder7a.sumPairs (exSeeder7a.replaceDuplicates [0, 1, 2, 3, 4, 5, 6]) ∧
      42 = 2 * exSeeder7a.coPairsCount (exSeeder7a.replaceDuplicates [0, 1, 2, 3, 4, 5, 6]) ∧
      42 ≤ 42) := by
  have heq : exSeeder7a.fitness_score [0, 1, 2, 3, 4, 5, 6] = .ok 42 := rfl
  exact ⟨heq, fitness_score_amended exSeeder7a [0, 1, 2, 3, 4, 5, 6] 42 (by decide) heq
    (by decide) (by decide)⟩

theorem getD_cons_eraseIdx_perm {γ : Type} :
    ∀ (l : List γ) (j : Nat) (d : γ), j < l.length →
      (l.getD j d :: l.eraseIdx j).Perm l := by
  intro l
  induction l with
  | nil => intro j d h; simp at h
  | cons a as ih =>
    intro j d h
    cases j with
    | zero => simp [List.eraseIdx]
    | succ j =>
      simp only [List.getD_cons_succ, List.eraseIdx_cons_succ]
      have hj : j < as.length := by simpa using h
      exact (List.Perm.swap a (as.getD j d) _).trans ((ih j d hj).cons a)

theorem coe_getD_eraseIdx {γ : Type} (l : List γ) (j : Nat) (d : γ) (h : j < l.length) :
    (l.getD j d ::ₘ (l.eraseIdx j : Multiset γ)) = (l : Multiset γ) := by
  rw [Multiset.cons_coe]
  exact Multiset.coe_eq_coe.mpr (getD_cons_eraseIdx_perm l j d h)

theorem flatten_set_ms {γ : Type} :
    ∀ (L : List (List γ)) (i : Nat) (x : List γ), i < L.length →
      ((L.set i x).flatten : Multiset γ) + (L.getD i [] : Multiset γ)
        = (L.flatten : Multiset γ) + (x : Multiset γ) := by
  intro L
  induction L with
  | nil => intro i x h; simp at h
  | cons g gs ih =>
    intro i x h
    cases i with
    | zero =>
      simp only [List.set, List.getD_cons_zero, List.flatten_cons]
      rw [← Multiset.coe_add, ← Multiset.coe_add]
      abel
    | succ i =>
      simp only [List.set, List.getD_cons_succ, List.flatten_cons]
      rw [← Multiset.coe_add, ← Multiset.coe_add]
      have hh : i < gs.length := by simpa using h
      rw [add_assoc, ih i x hh, ← add_assoc]

theorem poolRemove_ok :
    ∀ (os base players : List α), poolRemove base os = .ok players → base.Nodup →
      players.Nodup ∧ (∀ p, p ∈ players ↔ p ∈ base ∧ p ∉ os) := by
  intro os
  induction os with
  | nil =>
    intro base players h hnd
    simp only [poolRemove] at h
    cases h
    exact ⟨hnd, fun p => by simp⟩
  | cons o os ih =>
    intro base players h hnd
    simp only [poolRemove] at h
    by_cases ho : o ∈ base
    · rw [if_pos ho] at h
      obtain ⟨hnd', hmem⟩ := ih (base.erase o) players h (hnd.erase o)
      refine ⟨hnd', ?_⟩
      intro p
      rw [hmem p, List.Nodup.mem_erase_iff hnd]
      constructor
      · rintro ⟨⟨hpo, hpb⟩, hpos⟩
        refine ⟨hpb, ?_⟩
        intro hmem'
        rcases List.mem_cons.mp hmem' with h1 | h2
        · exact hpo h1
        · exact hpos h2
      · rintro ⟨hpb, hpo⟩
        exact ⟨⟨fun he => hpo (he ▸ List.mem_cons_self _ _), hpb⟩,
          fun hm => hpo (List.mem_cons_of_mem _ hm)⟩
    · rw [if_neg ho] at h
      cases h

theorem player_pool_ok (s : GameSeeder α) (omitting players : List α)
    (h : s.player_pool omitting = .ok players) :
    players.Nodup ∧
      ∀ p, p ∈ players ↔ ((p ∈ s.registered ∨ p ∈ s.dupKeys) ∧ p ∉ omitting) := by
  obtain ⟨hnd, hmem⟩ := poolRemove_ok omitting _ players h (List.nodup_dedup _)
  refine ⟨hnd, ?_⟩
  intro p
  rw [hmem p, List.mem_dedup, List.mem_append]

theorem set_fitness_ok_no_collision (s : GameSeeder α) :
    ∀ games f, s.set_fitness games = .ok f → ∀ g ∈ games, s.self_collision g = false := by
  intro games
  induction games with
  | nil => intro f h g hg; simp at hg
  | cons g0 gs ih =>
    intro f h g hg
    simp only [GameSeeder.set_fitness] at h
    cases hf : s.fitness_score g0 with
    | error e => rw [hf] at h; cases h
    | ok f0 =>
      rw [hf] at h
      dsimp only at h
      cases hfs : s.set_fitness gs with
      | error e => rw [hfs] at h; cases h
      | ok frest =>
        rcases List.mem_cons.mp hg with hgg | hg'
        · unfold GameSeeder.fitness_score at hf
          by_cases hc : s.self_collision g0 = true
          · rw [if_pos hc] at hf; cases hf
          · rw [hgg]
            exact Bool.not_eq_true _ ▸ hc
        · exact ih frest hfs g hg'

theorem coe_cons_ms {γ : Type} (a : γ) (l : List γ) :
    ((a :: l : List γ) : Multiset γ) = {a} + (l : Multiset γ) := by
  rw [← Multiset.cons_coe, ← Multiset.singleton_add]

theorem self_collision_nil (s : GameSeeder α) : s.self_collision [] = false := by
  simp [GameSeeder.self_collision]

theorem assign_randomly_ok (s : GameSeeder α) (rand : Nat → Nat) :
    ∀ (fuel t : Nat) (players discards game : List α) (res out : List (List α)) (t' : Nat),
      s.assign_randomly rand fuel t players discards game res = some (.ok out, t') →
      (players ++ discards ++ game).Nodup →
      s.self_collision game = false →
      game.length < 7 →
      7 ∣ players.length + discards.length + game.length →
      (∀ g ∈ res, g.length = 7 ∧ s.self_collision g = false) →
      ((out.flatten : Multiset α)
          = (res.flatten : Multiset α) + ↑players + ↑discards + ↑game) ∧
      (∀ g ∈ out, g.length = 7 ∧ s.self_collision g = false) := by
  intro fuel
  induction fuel with
  | zero => intro t players discards game res out t' h; cases h
  | succ fuel ih =>
    intro t players discards game res out t' h hnd hcol hglen hdvd hres
    cases players with
    | nil =>
      simp only [GameSeeder.assign_randomly] at h
      cases discards with
      | nil =>
        simp only [List.isEmpty_nil, if_true] at h
        simp only [Option.some.injEq, Prod.mk.injEq, Except.ok.injEq] at h
        obtain ⟨rfl, rfl⟩ := h
        have hg7 : 7 ∣ game.length := by simpa using hdvd
        have hg0 : game.length = 0 := Nat.eq_zero_of_dvd_of_lt hg7 hglen
        have hgnil : game = [] := List.eq_nil_of_length_eq_zero hg0
        subst hgnil
        refine ⟨by simp, hres⟩
      | cons d ds =>
        simp only [List.isEmpty_cons, Bool.false_eq_true, if_false] at h
        simp at h
    | cons p0 ps =>
      simp only [GameSeeder.assign_randomly] at h
      have hpos : 0 < (p0 :: ps).length := by simp
      have hip : rand t % (p0 :: ps).length < (p0 :: ps).length := Nat.mod_lt _ hpos
      set p := (p0 :: ps).getD (rand t % (p0 :: ps).length) p0 with hpdef
      set players' := (p0 :: ps).eraseIdx (rand t % (p0 :: ps).length) with hpldef
      have hperm : (p :: players').Perm (p0 :: ps) := getD_cons_eraseIdx_perm _ _ _ hip
      have hlen' : players'.length + 1 = (p0 :: ps).length := by
        rw [hpldef, List.length_eraseIdx, if_pos hip]
        omega
      have hnd2 : ((p :: players') ++ discards ++ game).Nodup :=
        (List.Perm.nodup_iff
          (((hperm.append_right discards)).append_right game)).mpr hnd
      have hnd2' : (p :: (players' ++ discards ++ game)).Nodup := by
        simpa using hnd2
      have hpnot : p ∉ players' ++ discards ++ game := (List.nodup_cons.mp hnd2').1
      have hnd3 : (players' ++ discards ++ game).Nodup := (List.nodup_cons.mp hnd2').2
      have hcoe : ((p0 :: ps : List α) : Multiset α) = {p} + ↑players' := by
        rw [← Multiset.coe_eq_coe.mpr hperm, coe_cons_ms]
      by_cases hdup : s.duplicate_in_game game p = true
      · rw [if_pos hdup] at h
        have hndr : (players' ++ (p :: discards) ++ game).Nodup := by
          have hp2 : (players' ++ (p :: discards) ++ game).Perm
              ((p :: (players' ++ discards)) ++ game) :=
            List.Perm.append_right game List.perm_middle
          exact (hp2.nodup_iff).mpr hnd2'
        have hdvdr : 7 ∣ players'.length + (p :: discards).length + game.length := by
          have : players'.length + (p :: discards).length + game.length
              = (p0 :: ps).length + discards.length + game.length := by
            rw [List.length_cons]
            omega
          rw [this]
          exact hdvd
        obtain ⟨hms, hgood⟩ := ih (t + 1) players' (p :: discards) game res out t' h
          hndr hcol hglen hdvdr hres
        refine ⟨?_, hgood⟩
        rw [hms, hcoe, coe_cons_ms p discards]
        abel
      · rw [if_neg hdup] at h
        have hpgame : p ∉ game := fun hm =>
          hpnot (List.mem_append.mpr (Or.inr hm))
        have hcol' : s.self_collision (p :: game) = false := by
          unfold GameSeeder.duplicate_in_game at hdup
          rw [if_neg hpgame] at hdup
          exact Bool.not_eq_true _ ▸ hdup
        by_cases h7 : (p :: game).length = 7
        · rw [if_pos h7] at h
          have h6 : game.length = 6 := by
            rw [List.length_cons] at h7
            omega
          have hnda : ((players' ++ discards) ++ [] ++ []).Nodup := by
            simp only [List.append_nil]
            exact (List.nodup_append.mp hnd3).1
          have hdvda : 7 ∣ (players' ++ discards).length + ([] : List α).length
              + ([] : List α).length := by
            obtain ⟨k, hk⟩ := hdvd
            refine ⟨k - 1, ?_⟩
            rw [List.length_append]
            simp only [List.length_nil]
            omega
          have hresa : ∀ g ∈ res ++ [p :: game], g.length = 7 ∧ s.self_collision g = false := by
            intro g hg
            rcases List.mem_append.mp hg with hg1 | hg2
            · exact hres g hg1
            · rw [List.mem_singleton.mp hg2]
              exact ⟨h7, hcol'⟩
          obtain ⟨hms, hgood⟩ := ih (t + 1) (players' ++ discards) [] []
            (res ++ [p :: game]) out t' h hnda (self_collision_nil s) (by simp) hdvda hresa
          refine ⟨?_, hgood⟩
          rw [hms]
          rw [show ((res ++ [p :: game]).flatten : List α)
              = res.flatten ++ (p :: game) ++ [] by simp]
          rw [← Multiset.coe_add, ← Multiset.coe_add, ← Multiset.coe_add,
            coe_cons_ms p game, hcoe]
          simp only [Multiset.coe_nil, add_zero]
          abel
        · rw [if_neg h7] at h
          have hndc : (players' ++ discards ++ (p :: game)).Nodup :=
            (List.perm_middle.nodup_iff).mpr hnd2'
          have hglenc : (p :: game).length < 7 := by
            rw [List.length_cons]
            rw [List.length_cons] at h7
            omega
          have hdvdc : 7 ∣ players'.length + discards.length + (p :: game).length := by
            have heq : players'.length + discards.length + (p :: game).length
                = (p0 :: ps).length + discards.length + game.length := by
              rw [List.length_cons]
              omega
            rw [heq]
            exact hdvd
          obtain ⟨hms, hgood⟩ := ih (t + 1) players' discards (p :: game) res out t' h
            hndc hcol' hglenc hdvdc hres
          refine ⟨?_, hgood⟩
          rw [hms, hcoe, coe_cons_ms p game]
          abel

theorem assign_players_wrapper_ok (s : GameSeeder α) (rand : Nat → Nat) :
    ∀ (attempts fuel t : Nat) (players : List α) (out : List (List α)) (t' : Nat),
      s.assign_players_wrapper rand attempts fuel t players = some (out, t') →
      players.Nodup → 7 ∣ players.length →
      ((out.flatten : Multiset α) = ↑players) ∧
      (∀ g ∈ out, g.length = 7 ∧ s.self_collision g = false) := by
  intro attempts
  induction attempts with
  | zero => intro fuel t players out t' h; cases h
  | succ attempts ih =>
    intro fuel t players out t' h hnd hdvd
    simp only [GameSeeder.assign_players_wrapper] at h
    cases hc : s.assign_randomly rand fuel t players [] [] [] with
    | none => rw [hc] at h; cases h
    | some r =>
      obtain ⟨er, t₁⟩ := r
      cases er with
      | ok res =>
        rw [hc] at h
        dsimp only at h
        simp only [Option.some.injEq, Prod.mk.injEq] at h
        obtain ⟨h1, h2⟩ := h
        rw [h1, h2] at hc
        obtain ⟨hms, hgood⟩ := assign_randomly_ok s rand fuel t players [] [] [] out t' hc
          (by simpa using hnd) (self_collision_nil s) (by simp) (by simpa using hdvd)
          (by simp)
        refine ⟨?_, hgood⟩
        rw [hms]
        simp
      | error u =>
        rw [hc] at h
        dsimp only at h
        exact ih fuel t₁ players out t' h hnd hdvd

theorem getD_set_ne {γ : Type} (L : List γ) (i : Nat) (x : γ) (j : Nat)
    (hne : i ≠ j) (d : γ) : (L.set i x).getD j d = L.getD j d := by
  rcases Nat.lt_or_ge j L.length with hj | hj
  · have hj' : j < (L.set i x).length := by simpa using hj
    rw [List.getD_eq_getElem _ _ hj', List.getD_eq_getElem _ _ hj]
    exact List.getElem_set_ne hne hj'
  · rw [List.getD_eq_default, List.getD_eq_default]
    · exact hj
    · simpa using hj

theorem getD_mem_of_lt {γ : Type} (L : List γ) (i : Nat) (d : γ) (h : i < L.length) :
    L.getD i d ∈ L := by
  rw [List.getD_eq_getElem _ _ h]
  exact List.getElem_mem h

/-- The swap step of _improve_fitness preserves the partition invariant. -/
theorem swap_part {P : Multiset α} {games : List (List α)} (i1 i2 : Nat)
    (hi1 : i1 < games.length) (hi2 : i2 < games.length) (hne : i1 ≠ i2)
    (hpart : PartGames P games) (j1 j2 : Nat) (a1 a2 : α)
    (hj1 : j1 < (games.getD i1 []).length) (hj2 : j2 < (games.getD i2 []).length) :
    PartGames P
      ((games.set i1
          (if (games.getD i2 []).getD j2 a2 ∈ (games.getD i1 []).eraseIdx j1 then
            (games.getD i1 []).eraseIdx j1
          else (games.getD i2 []).getD j2 a2 :: (games.getD i1 []).eraseIdx j1)).set i2
        (if (games.getD i1 []).getD j1 a1 ∈ (games.getD i2 []).eraseIdx j2 then
            (games.getD i2 []).eraseIdx j2
          else (games.getD i1 []).getD j1 a1 :: (games.getD i2 []).eraseIdx j2)) := by
  obtain ⟨hP, hnd, hlen⟩ := hpart
  obtain ⟨hparts, hdisj⟩ := List.nodup_flatten.mp hnd
  have hg1mem : games.getD i1 [] ∈ games := getD_mem_of_lt games i1 [] hi1
  have hg2mem : games.getD i2 [] ∈ games := getD_mem_of_lt games i2 [] hi2
  have hdisj12 : (games.getD i1 []).Disjoint (games.getD i2 []) := by
    rcases Nat.lt_or_ge i1 i2 with hlt | hge
    · have := List.pairwise_iff_get.mp hdisj ⟨i1, hi1⟩ ⟨i2, hi2⟩ hlt
      rw [List.getD_eq_getElem _ _ hi1, List.getD_eq_getElem _ _ hi2]
      exact this
    · have hlt2 : i2 < i1 := Nat.lt_of_le_of_ne hge (fun he => hne he.symm)
      have := List.pairwise_iff_get.mp hdisj ⟨i2, hi2⟩ ⟨i1, hi1⟩ hlt2
      rw [List.getD_eq_getElem _ _ hi1, List.getD_eq_getElem _ _ hi2]
      exact List.Disjoint.symm this
  have hp1mem : (games.getD i1 []).getD j1 a1 ∈ games.getD i1 [] :=
    getD_mem_of_lt _ j1 a1 hj1
  have hp2mem : (games.getD i2 []).getD j2 a2 ∈ games.getD i2 [] :=
    getD_mem_of_lt _ j2 a2 hj2
  have hp2not : (games.getD i2 []).getD j2 a2 ∉ (games.getD i1 []).eraseIdx j1 := by
    intro hm
    exact hdisj12.symm hp2mem ((List.eraseIdx_sublist _ j1).mem hm)
  have hp1not : (games.getD i1 []).getD j1 a1 ∉ (games.getD i2 []).eraseIdx j2 := by
    intro hm
    exact hdisj12 hp1mem ((List.eraseIdx_sublist _ j2).mem hm)
  rw [if_neg hp2not, if_neg hp1not]
  set p1 := (games.getD i1 []).getD j1 a1 with hp1def
  set p2 := (games.getD i2 []).getD j2 a2 with hp2def
  set g1n := p2 :: (games.getD i1 []).eraseIdx j1 with hg1ndef
  set g2n := p1 :: (games.getD i2 []).eraseIdx j2 with hg2ndef
  have hi2' : i2 < (games.set i1 g1n).length := by simpa using hi2
  have hms1 : ((games.set i1 g1n).flatten : Multiset α) + ↑(games.getD i1 [])
      = ↑games.flatten + ↑g1n := flatten_set_ms games i1 g1n hi1
  have hms2 : (((games.set i1 g1n).set i2 g2n).flatten : Multiset α)
        + ↑((games.set i1 g1n).getD i2 [])
      = ↑(games.set i1 g1n).flatten + ↑g2n := flatten_set_ms _ i2 g2n hi2'
  rw [getD_set_ne games i1 g1n i2 hne []] at hms2
  have hc1 : ((games.getD i1 [] : List α) : Multiset α)
      = {p1} + ↑((games.getD i1 []).eraseIdx j1) := by
    rw [← coe_getD_eraseIdx (games.getD i1 []) j1 a1 hj1, ← hp1def,
      ← Multiset.singleton_add]
  have hc2 : ((games.getD i2 [] : List α) : Multiset α)
      = {p2} + ↑((games.getD i2 []).eraseIdx j2) := by
    rw [← coe_getD_eraseIdx (games.getD i2 []) j2 a2 hj2, ← hp2def,
      ← Multiset.singleton_add]
  have hg1nms : (g1n : Multiset α) = {p2} + ↑((games.getD i1 []).eraseIdx j1) := by
    rw [hg1ndef, coe_cons_ms]
  have hg2nms : (g2n : Multiset α) = {p1} + ↑((games.getD i2 []).eraseIdx j2) := by
    rw [hg2ndef, coe_cons_ms]
  have hmseq : (((games.set i1 g1n).set i2 g2n).flatten : Multiset α)
      = ↑games.flatten := by
    have hcomb : (((games.set i1 g1n).set i2 g2n).flatten : Multiset α)
          + ↑(games.getD i2 []) + ↑(games.getD i1 [])
        = ↑games.flatten + ↑g1n + ↑g2n := by
      rw [hms2, add_right_comm, hms1]
    rw [hc1, hc2, hg1nms, hg2nms] at hcomb
    have hre : (↑games.flatten : Multiset α)
          + ({p2} + ↑((games.getD i1 []).eraseIdx j1))
          + ({p1} + ↑((games.getD i2 []).eraseIdx j2))
        = ↑games.flatten
          + (({p2} + ↑((games.getD i2 []).eraseIdx j2))
            + ({p1} + ↑((games.getD i1 []).eraseIdx j1))) := by
      abel
    rw [hre] at hcomb
    rw [add_assoc] at hcomb
    exact add_right_cancel hcomb
  refine ⟨hmseq.trans hP, ?_, ?_⟩
  · rw [← Multiset.coe_nodup]
    rw [hmseq, Multiset.coe_nodup]
    exact hnd
  · intro g hg
    rcases List.mem_or_eq_of_mem_set hg with hg' | hg'
    · rcases List.mem_or_eq_of_mem_set hg' with hg'' | hg''
      · exact hlen g hg''
      · rw [hg'', hg1ndef, List.length_cons, List.length_eraseIdx, if_pos hj1,
          hlen _ hg1mem]
    · rw [hg', hg2ndef, List.length_cons, List.length_eraseIdx, if_pos hj2,
        hlen _ hg2mem]

theorem improve_loop_good (s : GameSeeder α) (rand : Nat → Nat) (P : Multiset α) :
    ∀ (iters t : Nat) (games best : List (List α)) (bf : Nat)
      (out : List (List α)) (fit t' : Nat),
      s.improve_loop rand iters t games best bf = some (out, fit, t') →
      PartGames P games → PartGames P best →
      (∀ g ∈ best, s.self_collision g = false) →
      PartGames P out ∧ ∀ g ∈ out, s.self_collision g = false := by
  intro iters
  induction iters with
  | zero =>
    intro t games best bf out fit t' h hg hb hbc
    simp only [GameSeeder.improve_loop] at h
    simp only [Option.some.injEq, Prod.mk.injEq] at h
    obtain ⟨h1, _, _⟩ := h
    rw [← h1]
    exact ⟨hb, hbc⟩
  | succ iters ih =>
    intro t games best bf out fit t' h hg hb hbc
    cases games with
    | nil =>
      simp only [GameSeeder.improve_loop] at h
      cases h
    | cons g0 gs =>
      simp only [GameSeeder.improve_loop] at h
      by_cases h12 : rand t % (g0 :: gs).length = rand (t + 1) % (g0 :: gs).length
      · rw [if_pos h12] at h
        by_cases hlen2 : ((g0 :: gs).getD (rand t % (g0 :: gs).length) []).length < 2
        · rw [if_pos hlen2] at h; cases h
        · rw [if_neg hlen2] at h
          cases hsf : s.set_fitness (g0 :: gs) with
          | error e =>
            rw [hsf] at h
            dsimp only at h
            exact ih _ _ _ _ _ _ _ h hg hb hbc
          | ok fitness =>
            rw [hsf] at h
            dsimp only at h
            by_cases hcmp : fitness < bf
            · rw [if_pos hcmp] at h
              exact ih _ _ _ _ _ _ _ h hg hg
                (set_fitness_ok_no_collision s _ _ hsf)
            · rw [if_neg hcmp] at h
              exact ih _ _ _ _ _ _ _ h hg hb hbc
      · rw [if_neg h12] at h
        have hi1 : rand t % (g0 :: gs).length < (g0 :: gs).length :=
          Nat.mod_lt _ (by simp)
        have hi2 : rand (t + 1) % (g0 :: gs).length < (g0 :: gs).length :=
          Nat.mod_lt _ (by simp)
        cases hg1 : (g0 :: gs).getD (rand t % (g0 :: gs).length) [] with
        | nil => rw [hg1] at h; simp at h
        | cons a1 r1 =>
          cases hg2 : (g0 :: gs).getD (rand (t + 1) % (g0 :: gs).length) [] with
          | nil => rw [hg1, hg2] at h; simp at h
          | cons a2 r2 =>
            have hj1 : rand (t + 2) % (a1 :: r1).length < (a1 :: r1).length :=
              Nat.mod_lt _ (by simp)
            have hj2 : rand (t + 3) % (a2 :: r2).length < (a2 :: r2).length :=
              Nat.mod_lt _ (by simp)
            have hj1' : rand (t + 2) % (a1 :: r1).length
                < ((g0 :: gs).getD (rand t % (g0 :: gs).length) []).length := by
              rw [hg1]; exact hj1
            have hj2' : rand (t + 3) % (a2 :: r2).length
                < ((g0 :: gs).getD (rand (t + 1) % (g0 :: gs).length) []).length := by
              rw [hg2]; exact hj2
            have hsw := @swap_part α _ P (g0 :: gs)
              (rand t % (g0 :: gs).length) (rand (t + 1) % (g0 :: gs).length)
              hi1 hi2 h12 hg
              (rand (t + 2) % (a1 :: r1).length) (rand (t + 3) % (a2 :: r2).length)
              a1 a2 hj1' hj2'
            rw [hg1, hg2] at hsw
            rw [hg1, hg2] at h
            dsimp only at h
            cases hsf : s.set_fitness
                (((g0 :: gs).set (rand t % (g0 :: gs).length)
                  (if (a2 :: r2).getD (rand (t + 3) % (a2 :: r2).length) a2
                      ∈ (a1 :: r1).eraseIdx (rand (t + 2) % (a1 :: r1).length) then
                    (a1 :: r1).eraseIdx (rand (t + 2) % (a1 :: r1).length)
                  else
                    (a2 :: r2).getD (rand (t + 3) % (a2 :: r2).length) a2 ::
                      (a1 :: r1).eraseIdx (rand (t + 2) % (a1 :: r1).length))).set
                  (rand (t + 1) % (g0 :: gs).length)
                  (if (a1 :: r1).getD (rand (t + 2) % (a1 :: r1).length) a1
                      ∈ (a2 :: r2).eraseIdx (rand (t + 3) % (a2 :: r2).length) then
                    (a2 :: r2).eraseIdx (rand (t + 3) % (a2 :: r2).length)
                  else
                    (a1 :: r1).getD (rand (t + 2) % (a1 :: r1).length) a1 ::
                      (a2 :: r2).eraseIdx (rand (t + 3) % (a2 :: r2).length))) with
            | error e =>
              rw [hsf] at h
              dsimp only at h
              exact ih _ _ _ _ _ _ _ h hg hb hbc
            | ok fitness =>
              rw [hsf] at h
              dsimp only at h
              by_cases hcmp : fitness < bf
              · rw [if_pos hcmp] at h
                exact ih _ _ _ _ _ _ _ h hsw hsw
                  (set_fitness_ok_no_collision s _ _ hsf)
              · rw [if_neg hcmp] at h
                exact ih _ _ _ _ _ _ _ h hsw hb hbc

theorem improve_fitness_good (s : GameSeeder α) (rand : Nat → Nat) (P : Multiset α)
    (t : Nat) (games out : List (List α)) (fit t' : Nat)
    (h : s.improve_fitness rand t games = some (out, fit, t'))
    (hg : PartGames P games) :
    PartGames P out ∧ ∀ g ∈ out, s.self_collision g = false := by
  unfold GameSeeder.improve_fitness at h
  cases hsf : s.set_fitness games with
  | error e => rw [hsf] at h; cases h
  | ok f0 =>
    rw [hsf] at h
    dsimp only at h
    exact improve_loop_good s rand P s.iterations t games games f0 out fit t' h hg hg
      (set_fitness_ok_no_collision s games f0 hsf)

theorem seed_games_aux_ok (s : GameSeeder α) (rand : Nat → Nat)
    (attempts fuel t : Nat) (omitting : List α) (res : List (List α)) (fit t' : Nat)
    (h : s.seed_games_aux rand attempts fuel t omitting = some (.ok (res, fit), t')) :
    ∃ players, s.player_pool omitting = .ok players ∧
      ((res.flatten : Multiset α) = ↑players) ∧
      (∀ g ∈ res, g.length = 7 ∧ s.self_collision g = false) ∧
      (s.games_played = 0 → fit = 0) := by
  unfold GameSeeder.seed_games_aux at h
  cases hpool : s.player_pool omitting with
  | error e => rw [hpool] at h; simp at h
  | ok players =>
    rw [hpool] at h
    dsimp only at h
    by_cases hm : players.length % 7 ≠ 0
    · rw [if_pos hm] at h; simp at h
    · rw [if_neg hm] at h
      push_neg at hm
      obtain ⟨hnd, _⟩ := player_pool_ok s omitting players hpool
      have hdvd : 7 ∣ players.length := Nat.dvd_of_mod_eq_zero hm
      cases hw : s.assign_players_wrapper rand attempts fuel t players with
      | none => rw [hw] at h; cases h
      | some r =>
        obtain ⟨res0, t₁⟩ := r
        rw [hw] at h
        dsimp only at h
        obtain ⟨hms, hgood⟩ :=
          assign_players_wrapper_ok s rand attempts fuel t players res0 t₁ hw hnd hdvd
        by_cases hgp : s.games_played = 0
        · rw [if_pos hgp] at h
          simp only [Option.some.injEq, Prod.mk.injEq, Except.ok.injEq] at h
          obtain ⟨⟨h1, h2⟩, _⟩ := h
          refine ⟨players, rfl, ?_, ?_, fun _ => h2.symm⟩
          · rw [← h1]; exact hms
          · intro g hgmem
            apply hgood
            rw [h1]
            exact hgmem
        · rw [if_neg hgp] at h
          cases him : s.improve_fitness rand t₁ res0 with
          | none => rw [him] at h; cases h
          | some r2 =>
            obtain ⟨bestg, fit2, t₂⟩ := r2
            rw [him] at h
            dsimp only at h
            simp only [Option.some.injEq, Prod.mk.injEq, Except.ok.injEq] at h
            obtain ⟨⟨h1, _⟩, _⟩ := h
            have hpart : PartGames (↑players) res0 := by
              refine ⟨hms, ?_, fun g hg => (hgood g hg).1⟩
              rw [← Multiset.coe_nodup, hms, Multiset.coe_nodup]
              exact hnd
            obtain ⟨⟨hms2, _, hlen2⟩, hcol2⟩ :=
              improve_fitness_good s rand ↑players t₁ res0 bestg fit2 t₂ him hpart
            refine ⟨players, rfl, ?_, ?_, fun hgp0 => absurd hgp0 hgp⟩
            · rw [← h1]; exact hms2
            · intro g hgmem
              rw [← h1] at hgmem
              exact ⟨hlen2 g hgmem, hcol2 g hgmem⟩

theorem seed_games_starts_mem (s : GameSeeder α) (rand : Nat → Nat)
    (attempts fuel : Nat) (omitting : List α) :
    ∀ (n t : Nat) (lst : List (List (List α) × Nat)) (t' : Nat),
      s.seed_games_starts rand attempts fuel omitting n t = some (.ok lst, t') →
      ∀ sf ∈ lst, ∃ t₀ t₁, s.seed_games_aux rand attempts fuel t₀ omitting
        = some (.ok sf, t₁) := by
  intro n
  induction n with
  | zero =>
    intro t lst t' h sf hsf
    simp only [GameSeeder.seed_games_starts] at h
    simp only [Option.some.injEq, Prod.mk.injEq, Except.ok.injEq] at h
    obtain ⟨h1, _⟩ := h
    rw [← h1] at hsf
    simp at hsf
  | succ n ih =>
    intro t lst t' h sf hsf
    simp only [GameSeeder.seed_games_starts] at h
    cases ha : s.seed_games_aux rand attempts fuel t omitting with
    | none => rw [ha] at h; cases h
    | some r =>
      obtain ⟨er, t₁⟩ := r
      cases er with
      | error e => rw [ha] at h; simp at h
      | ok sf0 =>
        rw [ha] at h
        dsimp only at h
        cases hr : s.seed_games_starts rand attempts fuel omitting n t₁ with
        | none => rw [hr] at h; cases h
        | some r2 =>
          obtain ⟨er2, t₂⟩ := r2
          cases er2 with
          | error e => rw [hr] at h; simp at h
          | ok rest =>
            rw [hr] at h
            dsimp only at h
            simp only [Option.some.injEq, Prod.mk.injEq, Except.ok.injEq] at h
            obtain ⟨h1, _⟩ := h
            rw [← h1] at hsf
            rcases List.mem_cons.mp hsf with heq | hmem
            · exact ⟨t, t₁, heq ▸ ha⟩
            · exact ih t₁ rest t₂ hr sf hmem

theorem foldl_erase_facts :
    ∀ (game players : List α), game.Sublist players → players.Nodup →
      (game.foldl (fun l p => l.erase p) players).Nodup ∧
      ((game.foldl (fun l p => l.erase p) players : List α) : Multiset α) + ↑game
        = ↑players := by
  intro game
  induction game with
  | nil => intro players _ hnd; exact ⟨hnd, by simp⟩
  | cons a g ih =>
    intro players hsub hnd
    have ha : a ∈ players := hsub.subset (List.mem_cons_self _ _)
    have hgnd : (a :: g).Nodup := hsub.nodup hnd
    have hag : a ∉ g := (List.nodup_cons.mp hgnd).1
    have hsub' : g.Sublist (players.erase a) := by
      have h1 : (g.erase a).Sublist (players.erase a) :=
        List.Sublist.erase a (List.sublist_of_cons_sublist hsub)
      rwa [List.erase_of_not_mem hag] at h1
    obtain ⟨hnd2, hms2⟩ := ih (players.erase a) hsub' (hnd.erase a)
    refine ⟨hnd2, ?_⟩
    have hcoe : ((players.erase a : List α) : Multiset α) + {a} = ↑players := by
      have hperm : (a :: players.erase a).Perm players := (List.perm_cons_erase ha).symm
      rw [← Multiset.coe_eq_coe.mpr hperm, coe_cons_ms]
      abel
    show ((g.foldl (fun l p => l.erase p) (players.erase a) : List α) : Multiset α)
        + ↑(a :: g) = ↑players
    rw [coe_cons_ms, ← hcoe, ← hms2]
    abel

theorem apsFold_ok (recur : List α → Option (Except SeedErr (List (List (List α)))))
    (players : List α) (hnd : players.Nodup)
    (hrec : ∀ p2 L', recur p2 = some (.ok L') → p2.Nodup →
      ∀ sdg ∈ L', ((sdg.flatten : Multiset α) = ↑p2) ∧ (∀ g ∈ sdg, g.length = 7)) :
    ∀ (ts : List (List α)) (L : List (List (List α))),
      (∀ gm ∈ ts, gm.Sublist players ∧ gm.length = 7) →
      ts.foldr (apsStep recur players) (some (.ok [])) = some (.ok L) →
      ∀ sdg ∈ L, ((sdg.flatten : Multiset α) = ↑players) ∧ (∀ g ∈ sdg, g.length = 7) := by
  intro ts
  induction ts with
  | nil =>
    intro L hts h sdg hsdg
    simp only [List.foldr_nil, Option.some.injEq, Except.ok.injEq] at h
    rw [← h] at hsdg
    simp at hsdg
  | cons gm ts ih =>
    intro L hts h sdg hsdg
    simp only [List.foldr_cons] at h
    cases hacc : ts.foldr (apsStep recur players) (some (.ok [])) with
    | none =>
      rw [hacc] at h
      unfold apsStep at h
      cases hr : recur (gm.foldl (fun l p => l.erase p) players) with
      | none => rw [hr] at h; cases h
      | some er =>
        cases er with
        | error e => rw [hr] at h; simp at h
        | ok subs => rw [hr] at h; simp at h
    | some er2 =>
      cases er2 with
      | error e =>
        rw [hacc] at h
        unfold apsStep at h
        cases hr : recur (gm.foldl (fun l p => l.erase p) players) with
        | none => rw [hr] at h; cases h
        | some er =>
          cases er with
          | error e' => rw [hr] at h; simp at h
          | ok subs => rw [hr] at h; simp at h
      | ok rest =>
        rw [hacc] at h
        unfold apsStep at h
        cases hr : recur (gm.foldl (fun l p => l.erase p) players) with
        | none => rw [hr] at h; cases h
        | some er =>
          cases er with
          | error e => rw [hr] at h; simp at h
          | ok subs =>
            rw [hr] at h
            dsimp only at h
            simp only [Option.some.injEq, Except.ok.injEq] at h
            rw [← h] at hsdg
            obtain ⟨hsubpl, hlen7⟩ := hts gm (List.mem_cons_self _ _)
            obtain ⟨hp2nd, hp2ms⟩ := foldl_erase_facts gm players hsubpl hnd
            rcases List.mem_append.mp hsdg with hmem | hmem
            · obtain ⟨sdg0, hsdg0, heq⟩ := List.mem_map.mp hmem
              obtain ⟨hms0, hlen0⟩ := hrec _ subs hr hp2nd sdg0 hsdg0
              rw [← heq]
              constructor
              · rw [show ((sdg0 ++ [gm]).flatten : List α) = sdg0.flatten ++ gm by simp]
                rw [← Multiset.coe_add, hms0]
                exact hp2ms
              · intro g hg
                rcases List.mem_append.mp hg with hg' | hg'
                · exact hlen0 g hg'
                · rw [List.mem_singleton.mp hg']
                  exact hlen7
            · exact ih rest (fun gm' hm => hts gm' (List.mem_cons_of_mem _ hm)) hacc sdg hmem

theorem all_possible_seedings_ok (s : GameSeeder α) :
    ∀ (fuel : Nat) (players : List α) (L : List (List (List α))),
      s.all_possible_seedings fuel players = some (.ok L) → players.Nodup →
      ∀ sdg ∈ L, ((sdg.flatten : Multiset α) = ↑players) ∧ (∀ g ∈ sdg, g.length = 7) := by
  intro fuel
  induction fuel with
  | zero => intro players L h; cases h
  | succ fuel ih =>
    intro players L h hnd
    simp only [GameSeeder.all_possible_seedings] at h
    by_cases hm : players.length % 7 ≠ 0
    · rw [if_pos hm] at h; simp at h
    · rw [if_neg hm] at h
      by_cases h7 : players.length = 7
      · rw [if_pos h7] at h
        simp only [Option.some.injEq, Except.ok.injEq] at h
        rw [← h]
        intro sdg hsdg
        rw [List.mem_singleton.mp hsdg]
        refine ⟨by simp, ?_⟩
        intro g hg
        rw [List.mem_singleton.mp hg]
        exact h7
      · rw [if_neg h7] at h
        exact apsFold_ok (s.all_possible_seedings fuel) players hnd
          (fun p2 L' h' hnd' => ih p2 L' h' hnd')
          (players.sublistsLen 7) L
          (fun gm hm => by
            have hh := List.mem_sublistsLen.mp hm
            exact ⟨hh.1, hh.2⟩) h

/-- C1: every normal return of GameSeeder.seed_games — in RANDOM or EXHAUSTIVE
mode, for every outcome of the random source — is an exact partition of the
requested pool: the games' members are pairwise distinct, a player sits in a
game exactly when it is a registered player or a duplicate key and is not
omitted, no game holds two seats resolving to the same real player, and no
omitted player appears in any game. -/
theorem seed_games_partition (s : GameSeeder α) (rand : Nat → Nat)
    (attempts fuel t : Nat) (omitting : List α) (res : List (List α)) (t' : Nat)
    (h : s.seed_games rand attempts fuel t omitting = some (.ok res, t')) :
    res.flatten.Nodup ∧
      (∀ p, p ∈ res.flatten ↔ ((p ∈ s.registered ∨ p ∈ s.dupKeys) ∧ p ∉ omitting)) ∧
      (∀ g ∈ res, s.self_collision g = false) ∧
      (∀ p ∈ omitting, ∀ g ∈ res, p ∉ g) := by
  unfold GameSeeder.seed_games at h
  by_cases hbr : s.games_played = 0 ∨ s.seed_method = SeedMethod.RANDOM
  · rw [if_pos hbr] at h
    cases hst : s.seed_games_starts rand attempts fuel omitting
        (if s.games_played > 0 then s.starts else 1) t with
    | none => rw [hst] at h; cases h
    | some r =>
      obtain ⟨er, t₁⟩ := r
      cases er with
      | error e => rw [hst] at h; simp at h
      | ok seedings =>
        rw [hst] at h
        dsimp only at h
        cases hsort : sortByKey Prod.snd seedings with
        | nil => rw [hsort] at h; simp at h
        | cons best rest =>
          rw [hsort] at h
          dsimp only at h
          simp only [Option.some.injEq, Prod.mk.injEq, Except.ok.injEq] at h
          obtain ⟨h1, _⟩ := h
          obtain ⟨hmem, _⟩ := sortByKey_head_min Prod.snd seedings rest best hsort
          obtain ⟨t₀, t₁', haux⟩ := seed_games_starts_mem s rand attempts fuel
            omitting _ t seedings t₁ hst best hmem
          obtain ⟨players, hpool, hms, hgood, _⟩ := seed_games_aux_ok s rand
            attempts fuel t₀ omitting best.1 best.2 t₁'
            (by rw [Prod.mk.eta]; exact haux)
          obtain ⟨hnd, hchar⟩ := player_pool_ok s omitting players hpool
          rw [← h1]
          have hflat : ∀ p, p ∈ best.1.flatten ↔ p ∈ players := by
            intro p
            rw [← Multiset.mem_coe, hms, Multiset.mem_coe]
          refine ⟨?_, ?_, ?_, ?_⟩
          · rw [← Multiset.coe_nodup, hms, Multiset.coe_nodup]
            exact hnd
          · intro p
            exact (hflat p).trans (hchar p)
          · intro g hg
            exact (hgood g hg).2
          · intro p hp g hg hpg
            have hin : p ∈ best.1.flatten := List.mem_flatten.mpr ⟨g, hg, hpg⟩
            exact ((hchar p).mp ((hflat p).mp hin)).2 hp
  · rw [if_neg hbr] at h
    cases hpool : s.player_pool omitting with
    | error e => rw [hpool] at h; simp at h
    | ok players =>
      rw [hpool] at h
      dsimp only at h
      cases haps : s.all_possible_seedings fuel players with
      | none => rw [haps] at h; cases h
      | some er =>
        cases er with
        | error e => rw [haps] at h; simp at h
        | ok alls =>
          rw [haps] at h
          dsimp only at h
          cases hsort : sortByKey Prod.snd (alls.filterMap (fun sdg =>
              match s.set_fitness sdg with
              | .error _ => none
              | .ok f => some (sdg, f))) with
          | nil => rw [hsort] at h; simp at h
          | cons best rest =>
            rw [hsort] at h
            dsimp only at h
            simp only [Option.some.injEq, Prod.mk.injEq, Except.ok.injEq] at h
            obtain ⟨h1, _⟩ := h
            obtain ⟨hmem, _⟩ := sortByKey_head_min Prod.snd _ rest best hsort
            obtain ⟨sdg, hsdg, heq⟩ := List.mem_filterMap.mp hmem
            obtain ⟨hnd, hchar⟩ := player_pool_ok s omitting players hpool
            cases hf : s.set_fitness sdg with
            | error e => rw [hf] at heq; cases heq
            | ok f =>
              rw [hf] at heq
              dsimp only at heq
              simp only [Option.some.injEq] at heq
              have hb1 : best.1 = sdg := by rw [← heq]
              obtain ⟨hms, _⟩ := all_possible_seedings_ok s fuel players alls
                haps hnd sdg hsdg
              rw [← h1, hb1]
              have hflat : ∀ p, p ∈ sdg.flatten ↔ p ∈ players := by
                intro p
                rw [← Multiset.mem_coe, hms, Multiset.mem_coe]
              refine ⟨?_, ?_, ?_, ?_⟩
              · rw [← Multiset.coe_nodup, hms, Multiset.coe_nodup]
                exact hnd
              · intro p
                exact (hflat p).trans (hchar p)
              · intro g hg
                exact set_fitness_ok_no_collision s sdg f hf g hg
              · intro p hp g hg hpg
                have hin : p ∈ sdg.flatten := List.mem_flatten.mpr ⟨g, hg, hpg⟩
                exact ((hchar p).mp ((hflat p).mp hin)).2 hp

/-- C5: when no game has been recorded, a normal return of seed_games came
from exactly one call to _seed_games spanning the whole random-source segment,
with fitness 0; and in the scenario of exactly 7 registered duplicate-free
players, no duplicates and no omissions, the result is one table holding
precisely the registered players. -/
theorem seed_games_no_history (s : GameSeeder α) (rand : Nat → Nat)
    (attempts fuel t : Nat) (omitting : List α) (res : List (List α)) (t' : Nat)
    (h0 : s.games_played = 0)
    (h : s.seed_games rand attempts fuel t omitting = some (.ok res, t')) :
    s.seed_games_aux rand attempts fuel t omitting = some (.ok (res, 0), t') ∧
      (s.registered.length = 7 → s.registered.Nodup → s.duplicates = [] →
        omitting = [] →
        res.length = 1 ∧ ∀ p, p ∈ res.flatten ↔ p ∈ s.registered) := by
  have hc : (if s.games_played > 0 then s.starts else 1) = 1 := by
    rw [h0]
    simp
  unfold GameSeeder.seed_games at h
  rw [if_pos (Or.inl h0), hc] at h
  simp only [GameSeeder.seed_games_starts] at h
  cases haux : s.seed_games_aux rand attempts fuel t omitting with
  | none => rw [haux] at h; cases h
  | some r =>
    obtain ⟨er, t₁⟩ := r
    cases er with
    | error e => rw [haux] at h; simp at h
    | ok sf =>
      obtain ⟨sres, sfit⟩ := sf
      rw [haux] at h
      dsimp only at h
      simp only [sortByKey, insertByKey] at h
      simp only [Option.some.injEq, Prod.mk.injEq, Except.ok.injEq] at h
      obtain ⟨h1, h2⟩ := h
      obtain ⟨players, hpool, hms, hgood, hfit0⟩ := seed_games_aux_ok s rand
        attempts fuel t omitting sres sfit t₁ haux
      have hs0 : sfit = 0 := hfit0 h0
      constructor
      · rw [← h1, ← h2, ← hs0]
      · intro hlen7 hrnd hdup homit
        obtain ⟨hnd, hchar⟩ := player_pool_ok s omitting players hpool
        have hdk : s.dupKeys = [] := by
          simp [GameSeeder.dupKeys, hdup]
        have hpr : ∀ p, p ∈ players ↔ p ∈ s.registered := by
          intro p
          rw [hchar p, hdk, homit]
          simp
        have hperm : players.Perm s.registered :=
          (List.perm_ext_iff_of_nodup hnd hrnd).mpr hpr
        have hplen : players.length = 7 := by
          rw [hperm.length_eq, hlen7]
        have hflatlen : sres.flatten.length = 7 := by
          have := congrArg Multiset.card hms
          rw [Multiset.coe_card, Multiset.coe_card] at this
          rw [this, hplen]
        have hrep : sres.map List.length = List.replicate sres.length 7 := by
          have hall : ∀ b ∈ sres.map List.length, b = 7 := by
            intro b hb
            obtain ⟨g, hg, hgb⟩ := List.mem_map.mp hb
            rw [← hgb]
            exact (hgood g hg).1
          have := List.eq_replicate_of_mem hall
          rwa [List.length_map] at this
        have hflatsum : sres.flatten.length = sres.length * 7 := by
          rw [List.length_flatten, hrep]
          simp [List.sum_replicate]
        have hreslen : sres.length = 1 := by
          omega
        rw [← h1]
        refine ⟨hreslen, ?_⟩
        intro p
        have hflat : p ∈ sres.flatten ↔ p ∈ players := by
          rw [← Multiset.mem_coe, hms, Multiset.mem_coe]
        exact hflat.trans (hpr p)

set_option maxHeartbeats 1000000 in
/-- seed_games_partition at the 7-player seeder with the constant-zero random
source: the call succeeds with the single table [6,5,4,3,2,1,0], and the
theorem yields its duplicate-freeness. -/
theorem seed_games_partition_witness :
    exSeeder7.seed_games (fun _ => 0) 3 100 0 [] =
      some (.ok [[6, 5, 4, 3, 2, 1, 0]], 7) ∧
      ([[6, 5, 4, 3, 2, 1, 0]] : List (List Nat)).flatten.Nodup := by
  have heq : exSeeder7.seed_games (fun _ => 0) 3 100 0 [] =
      some (.ok [[6, 5, 4, 3, 2, 1, 0]], 7) := by rfl
  exact ⟨heq,
    (seed_games_partition exSeeder7 (fun _ => 0) 3 100 0 [] _ 7 heq).1⟩

set_option maxHeartbeats 1000000 in
/-- seed_games_no_history at the fresh 7-player seeder: games_played is 0, the
call succeeds, and the theorem locates the single _seed_games start with
fitness 0. -/
theorem seed_games_no_history_witness :
    exSeeder7.games_played = 0 ∧
      exSeeder7.seed_games_aux (fun _ => 0) 3 100 0 [] =
        some (.ok ([[6, 5, 4, 3, 2, 1, 0]], 0), 7) := by
  have h0 : exSeeder7.games_played = 0 := by rfl
  have heq : exSeeder7.seed_games (fun _ => 0) 3 100 0 [] =
      some (.ok [[6, 5, 4, 3, 2, 1, 0]], 7) := by rfl
  exact ⟨h0,
    (seed_games_no_history exSeeder7 (fun _ => 0) 3 100 0 [] _ 7 h0 heq).1⟩

end GameSeederRepo
